import Mathlib

/-!
Verification of the structured-path extraction and merge engine of
`bov-engine/scripts/geocode_addresses.py`.

The Python module works on JSON documents (nested dicts / lists / strings /
numbers).  We embed JSON values as the inductive type `JValue`; Python dicts
are insertion-ordered association lists with unique keys (which is what
`json.load` produces and what the script maintains), floats are modelled as
rationals (the script only ever rounds and stores them; binary floating point
representation issues are outside the model).  A raised Python exception is
modelled as `Option.none` propagating out of the function in which it occurs.
-/

/-- A JSON value.  Python dicts appear as `obj` with insertion-ordered fields
and pairwise-distinct keys, Python lists as `arr`.  Numbers are modelled as
rationals. -/
inductive JValue where
  | null
  | bool (b : Bool)
  | num (q : ℚ)
  | str (s : String)
  | arr (elems : List JValue)
  | obj (fields : List (String × JValue))

/-- One step of a JSON path, as stored in the `json_path` lists built by
`extract_addresses`: either a mapping key (string) or a sequence index
(non-negative integer). -/
inductive Step where
  | key (k : String)
  | idx (i : Nat)
deriving DecidableEq, Repr

/-- First (and, for dicts, only) binding of `k` in an association list;
models Python `dict[k]` lookup, `none` models a `KeyError`. -/
def lookupField : List (String × JValue) → String → Option JValue
  | [], _ => none
  | (k', v) :: fs, k => if k' = k then some v else lookupField fs k

/-- Python `dict[k] = v`: update the binding in place if the key is present,
otherwise append a new binding at the end (dicts preserve insertion order). -/
def setField : List (String × JValue) → String → JValue → List (String × JValue)
  | [], k, v => [(k, v)]
  | (k', v') :: fs, k, v =>
    if k' = k then (k', v) :: fs else (k', v') :: setField fs k v

/-- Python `obj[step]` read during `update_json` navigation.  A missing key
(`KeyError`), an out-of-range index (`IndexError`) or a read on a value that
does not support the given subscript (`TypeError`) is `none`.  Indexing into
a string can succeed in Python, but every such navigation necessarily ends in
a `TypeError` at the final assignment (strings only ever yield strings and
strings reject item assignment), so it is modelled as a failure as well. -/
def getStep : JValue → Step → Option JValue
  | .obj fs, .key k => lookupField fs k
  | .arr xs, .idx i => xs[i]?
  | _, _ => none

/-- Python `obj[step] = v`: dict assignment always succeeds (it creates the
key if absent); list assignment requires the index to be in range; every
other subscript assignment raises (`none`). -/
def setStep : JValue → Step → JValue → Option JValue
  | .obj fs, .key k, v => some (.obj (setField fs k v))
  | .arr xs, .idx i, v => if i < xs.length then some (.arr (xs.set i v)) else none
  | _, _, _ => none

/-- Read the value at a path (pure navigation, used only in statements). -/
def getPath : JValue → List Step → Option JValue
  | d, [] => some d
  | d, s :: rest => (getStep d s).bind fun c => getPath c rest

/-- The navigation-and-assign loop of `update_json` for a single path:
`obj = data; for key in path[:-1]: obj = obj[key]; obj[path[-1]] = v`.
An empty path raises (`path[-1]` is an `IndexError`). -/
def setPath : JValue → List Step → JValue → Option JValue
  | _, [], _ => none
  | d, [s], v => setStep d s v
  | d, s :: s' :: rest, v =>
    (getStep d s).bind fun child =>
      (setPath child (s' :: rest) v).bind fun child2 => setStep d s child2

/-- The per-entry resolution result built by `geocode_all`:
`{'address': addr, 'coords': coords-or-None, 'json_path': path}` plus the
optional `'error'` message added in the `except` branch. -/
structure GeoResult where
  address : String
  coords : Option (ℚ × ℚ)
  json_path : List Step
  error : Option String
deriving DecidableEq, Repr

/-- The body of the `update_json` loop for one `results` item: outcomes with
`coords is None` are skipped, the rest are written at their recorded path. -/
def mergeStep (d : JValue) (r : String × GeoResult) : Option JValue :=
  match r.2.coords with
  | none => some d
  | some c => setPath d r.2.json_path (.arr [.num c.1, .num c.2])

/-- `update_json(data, results)`: fold `mergeStep` over the results in dict
(insertion) order; a raised exception aborts the whole merge (`none`). -/
def update_json (d : JValue) : List (String × GeoResult) → Option JValue
  | [] => some d
  | r :: rest => (mergeStep d r).bind fun d1 => update_json d1 rest

/-- Two paths are incomparable when neither is a prefix of the other (so the
regions of the document they address are disjoint). -/
def incomp (p q : List Step) : Bool :=
  !(List.isPrefixOf p q) && !(List.isPrefixOf q p)

/-- Whether the navigate-and-assign of `setPath` would succeed on `d` at `p`
(the choice of written value is irrelevant, see `setPath_isSome_congr`). -/
def writable (d : JValue) (p : List Step) : Bool :=
  (setPath d p JValue.null).isSome

/-- No outcome path that will actually be written is a prefix of another
written outcome's path. -/
def PairwiseIncomp (rs : List (String × GeoResult)) : Prop :=
  List.Pairwise
    (fun a b => a.2.coords.isSome = true → b.2.coords.isSome = true →
      incomp a.2.json_path b.2.json_path = true) rs

/-!
Decimal rendering of natural numbers; models the Python f-string
interpolation of the `enumerate` indices when building the labels
`sale_comp_{i}`, `active_comp_{i}`, `rent_comp_{gi}_{ci}`.  Implemented with
explicit fuel so that it reduces definitionally.
-/

/-- Little-endian decimal digits of `n`, with fuel (`fuel ≥ n` suffices). -/
def decDigitsRevAux : Nat → Nat → List Nat
  | 0, _ => []
  | fuel + 1, n => if n = 0 then [] else n % 10 :: decDigitsRevAux fuel (n / 10)

/-- Little-endian decimal digits of `n` (empty for 0). -/
def decDigitsRev (n : Nat) : List Nat := decDigitsRevAux n n

/-- Value of a little-endian digit list. -/
def digitsVal : List Nat → Nat
  | [] => 0
  | d :: ds => d + 10 * digitsVal ds

/-- Decimal rendering of a natural number, as Python `str(i)` produces. -/
def decRepr (n : Nat) : String :=
  if n = 0 then "0" else String.mk ((decDigitsRev n).reverse.map Nat.digitChar)

theorem digitsVal_decDigitsRevAux :
    ∀ fuel n, n ≤ fuel → digitsVal (decDigitsRevAux fuel n) = n := by
  intro fuel
  induction fuel with
  | zero => intro n hn; interval_cases n; rfl
  | succ f ih =>
    intro n hn
    by_cases h0 : n = 0
    · subst h0; simp [decDigitsRevAux, digitsVal]
    · have hdiv : n / 10 ≤ f := by
        have : n / 10 < n := Nat.div_lt_self (Nat.pos_of_ne_zero h0) (by norm_num)
        omega
      simp only [decDigitsRevAux, h0, if_false, digitsVal, ih _ hdiv]
      omega

theorem digitsVal_decDigitsRev (n : Nat) : digitsVal (decDigitsRev n) = n :=
  digitsVal_decDigitsRevAux n n le_rfl

theorem decDigitsRev_injective : Function.Injective decDigitsRev := by
  intro a b h
  have := digitsVal_decDigitsRev a
  rw [h, digitsVal_decDigitsRev] at this
  omega

theorem decDigitsRevAux_lt_ten :
    ∀ fuel n d, d ∈ decDigitsRevAux fuel n → d < 10 := by
  intro fuel
  induction fuel with
  | zero => intro n d hd; simp [decDigitsRevAux] at hd
  | succ f ih =>
    intro n d hd
    by_cases h0 : n = 0
    · subst h0; simp [decDigitsRevAux] at hd
    · simp only [decDigitsRevAux, h0, if_false, List.mem_cons] at hd
      rcases hd with h | h
      · subst h; exact Nat.mod_lt _ (by norm_num)
      · exact ih _ _ h

theorem digitChar_inj_lt :
    ∀ a, a < 10 → ∀ b, b < 10 → Nat.digitChar a = Nat.digitChar b → a = b := by
  decide

theorem map_digitChar_inj :
    ∀ xs ys : List Nat, (∀ x ∈ xs, x < 10) → (∀ y ∈ ys, y < 10) →
      xs.map Nat.digitChar = ys.map Nat.digitChar → xs = ys := by
  intro xs
  induction xs with
  | nil => intro ys _ _ h; cases ys <;> simp_all
  | cons x xs ih =>
    intro ys hx hy h
    cases ys with
    | nil => simp at h
    | cons y ys =>
      simp only [List.map_cons, List.cons.injEq] at h
      have hxy : x = y :=
        digitChar_inj_lt x (hx x (by simp)) y (hy y (by simp)) h.1
      have := ih ys (fun a ha => hx a (by simp [ha])) (fun a ha => hy a (by simp [ha])) h.2
      simp [hxy, this]

theorem decRepr_ne_zero_of_pos {n : Nat} (hn : n ≠ 0) : decRepr n ≠ "0" := by
  intro h
  unfold decRepr at h
  rw [if_neg hn] at h
  have hdata : ((decDigitsRev n).reverse.map Nat.digitChar) = ['0'] := by
    have := congrArg String.data h
    simpa using this
  have hrev : (decDigitsRev n).reverse = [0] := by
    apply map_digitChar_inj _ _
      (fun x hx => decDigitsRevAux_lt_ten n n x (List.mem_reverse.mp hx))
      (by intro y hy; simp at hy; omega)
    · simpa using hdata
  have hdig : decDigitsRev n = [0] := by
    have := congrArg List.reverse hrev
    simpa using this
  have := digitsVal_decDigitsRev n
  rw [hdig] at this
  simp [digitsVal] at this
  exact hn this.symm

theorem decRepr_injective : Function.Injective decRepr := by
  intro a b h
  by_cases ha : a = 0
  · by_cases hb : b = 0
    · omega
    · subst ha
      exact absurd h.symm (decRepr_ne_zero_of_pos hb)
  · by_cases hb : b = 0
    · subst hb
      exact absurd h (decRepr_ne_zero_of_pos ha)
    · unfold decRepr at h
      rw [if_neg ha, if_neg hb] at h
      have hdata := congrArg String.data h
      simp only [String.mk] at hdata
      have hmap : (decDigitsRev a).reverse.map Nat.digitChar =
          (decDigitsRev b).reverse.map Nat.digitChar := hdata
      have hrev := map_digitChar_inj _ _
        (fun x hx => decDigitsRevAux_lt_ten a a x (List.mem_reverse.mp hx))
        (fun y hy => decDigitsRevAux_lt_ten b b y (List.mem_reverse.mp hy)) hmap
      have : decDigitsRev a = decDigitsRev b := by
        have := congrArg List.reverse hrev
        simpa using this
      exact decDigitsRev_injective this

theorem decRepr_no_underscore : ∀ n, ∀ c ∈ (decRepr n).data, c ≠ '_' := by
  intro n c hc
  unfold decRepr at hc
  by_cases h0 : n = 0
  · rw [if_pos h0] at hc
    simp only [String.data] at hc
    have : c = '0' := by simpa using hc
    subst this; decide
  · rw [if_neg h0] at hc
    simp only [String.mk] at hc
    rw [List.mem_map] at hc
    obtain ⟨d, hd, hdc⟩ := hc
    have hd10 : d < 10 := decDigitsRevAux_lt_ten n n d (List.mem_reverse.mp hd)
    subst hdc
    have hgen : ∀ e, e < 10 → Nat.digitChar e ≠ '_' := by decide
    exact hgen d hd10

theorem decRepr_length_pos (n : Nat) : 0 < (decRepr n).data.length := by
  unfold decRepr
  by_cases h0 : n = 0
  · rw [if_pos h0]; decide
  · rw [if_neg h0]
    simp only [String.mk, List.length_map, List.length_reverse]
    rcases hn : decDigitsRev n with _ | ⟨d, ds⟩
    · exfalso
      have := digitsVal_decDigitsRev n
      rw [hn] at this
      simp [digitsVal] at this
      exact h0 this.symm
    · simp

/-!
The extraction pass, `extract_addresses(data)`.

Python raises on shapes the code does not expect (e.g. `cover.get` when
`cover` is not a dict, or iterating comps that are not dicts); those
exceptions are modelled as `none`.  One deliberate restriction: the f-strings
in the source stringify any leaf value, while the model only accepts string
leaves (or absent ones, rendered as the empty string) — all claims quantify
over well-formed documents (`wellFormed` below) where leaves are strings, so
the two agree everywhere the theorems speak about.
-/

/-- An entry of the list returned by `extract_addresses`:
the `(label, addr, json_path)` triple. -/
structure AddrEntry where
  label : String
  addr : String
  json_path : List Step
deriving DecidableEq, Repr

/-- Python `container.get(k, default)`: requires a dict receiver
(`AttributeError` otherwise, modelled as `none`). -/
def pyGet (v : JValue) (k : String) (dflt : JValue) : Option JValue :=
  match v with
  | .obj fs => some ((lookupField fs k).getD dflt)
  | _ => none

/-- Python `container.get(k, '')` followed by f-string interpolation, for the
address leaf fields.  A missing key renders as the empty string; a non-string
leaf is outside the model (see the section comment). -/
def pyGetStr (v : JValue) (k : String) : Option String :=
  match v with
  | .obj fs =>
    match lookupField fs k with
    | none => some ""
    | some (.str s) => some s
    | some _ => none
  | _ => none

/-- The value must be a JSON array to be iterated by the comp loops
(a non-list value raises by the time `comp.get` is called). -/
def asList : JValue → Option (List JValue)
  | .arr xs => some xs
  | _ => none

/-- Indexed map, mirroring Python `enumerate` loops. -/
def idxMap (f : Nat → α → β) : Nat → List α → List β
  | _, [] => []
  | i, x :: xs => f i x :: idxMap f (i + 1) xs

/-- Indexed map where each element may raise; the first failure aborts. -/
def optIdxMap (f : Nat → α → Option β) : Nat → List α → Option (List β)
  | _, [] => some []
  | i, x :: xs =>
    match f i x with
    | none => none
    | some y =>
      match optIdxMap f (i + 1) xs with
      | none => none
      | some ys => some (y :: ys)

/-- `f"{street}, {city}, {state} {zip}"`. -/
def mkSubjectAddr (street city state zip : String) : String :=
  street ++ ", " ++ city ++ ", " ++ state ++ " " ++ zip

/-- `f"{city}, {state} {zip}"` (the `city_state` local of the comp loops). -/
def mkCityState (city state zip : String) : String :=
  city ++ ", " ++ state ++ " " ++ zip

/-- `f"{comp_address}, {city_state}"`. -/
def mkCompAddr (a cityState : String) : String :=
  a ++ ", " ++ cityState

/-- Label of a sale comp entry, `f"sale_comp_{i}"`. -/
def sLab (i : Nat) : String := "sale_comp_" ++ decRepr i

/-- Label of an active comp entry, `f"active_comp_{i}"`. -/
def aLab (i : Nat) : String := "active_comp_" ++ decRepr i

/-- Label of a rent comp entry, `f"rent_comp_{gi}_{ci}"`. -/
def rLab (g c : Nat) : String := "rent_comp_" ++ decRepr g ++ "_" ++ decRepr c

/-- Recorded path of the subject entry. -/
def subjectPath : List Step := [Step.key "coordinates", Step.key "subject"]

/-- Recorded path of sale comp `i`. -/
def salePath (i : Nat) : List Step :=
  [Step.key "sale_comps", Step.key "comps", Step.idx i, Step.key "coords"]

/-- Recorded path of active comp `i`. -/
def activePath (i : Nat) : List Step :=
  [Step.key "active_comps", Step.key "comps", Step.idx i, Step.key "coords"]

/-- Recorded path of rent comp `ci` of group `gi`. -/
def rentPath (g c : Nat) : List Step :=
  [Step.key "rent_comps", Step.key "groups", Step.idx g, Step.key "comps",
   Step.idx c, Step.key "coords"]

/-- One sale/active comp loop body: read the comp's own `address` field and
build the entry. -/
def compEntry (lab : String) (cityState : String) (path : List Step)
    (comp : JValue) : Option AddrEntry :=
  match pyGetStr comp "address" with
  | none => none
  | some a => some ⟨lab, mkCompAddr a cityState, path⟩

/-- `extract_addresses(data)` of the source, with exceptions as `none`. -/
def extract_addresses (data : JValue) : Option (List AddrEntry) :=
  match pyGet data "cover" (.obj []) with
  | none => none
  | some cover =>
  match pyGetStr cover "address_street" with
  | none => none
  | some street =>
  match pyGetStr cover "address_city" with
  | none => none
  | some city =>
  match pyGetStr cover "address_state" with
  | none => none
  | some state =>
  match pyGetStr cover "address_zip" with
  | none => none
  | some zip =>
  let subjectEntry : AddrEntry :=
    ⟨"subject", mkSubjectAddr street city state zip, subjectPath⟩
  let cityState := mkCityState city state zip
  match pyGet data "sale_comps" (.obj []) with
  | none => none
  | some saleSec =>
  match pyGet saleSec "comps" (.arr []) with
  | none => none
  | some saleJ =>
  match asList saleJ with
  | none => none
  | some saleComps =>
  match optIdxMap (fun i c => compEntry (sLab i) cityState (salePath i) c) 0 saleComps with
  | none => none
  | some saleEntries =>
  match pyGet data "active_comps" (.obj []) with
  | none => none
  | some activeSec =>
  match pyGet activeSec "comps" (.arr []) with
  | none => none
  | some activeJ =>
  match asList activeJ with
  | none => none
  | some activeComps =>
  match optIdxMap (fun i c => compEntry (aLab i) cityState (activePath i) c) 0 activeComps with
  | none => none
  | some activeEntries =>
  match pyGet data "rent_comps" (.obj []) with
  | none => none
  | some rentSec =>
  match pyGet rentSec "groups" (.arr []) with
  | none => none
  | some groupsJ =>
  match asList groupsJ with
  | none => none
  | some groups =>
  match optIdxMap (fun gi g =>
      match pyGet g "comps" (.arr []) with
      | none => none
      | some compsJ =>
      match asList compsJ with
      | none => none
      | some comps =>
        optIdxMap (fun ci c => compEntry (rLab gi ci) cityState (rentPath gi ci) c) 0 comps)
      0 groups with
  | none => none
  | some rentBlocks =>
  some (subjectEntry :: (saleEntries ++ activeEntries ++ rentBlocks.flatten))

/-!
Well-formed documents and the section selectors the claims talk about.
`wellFormed` captures exactly the shapes on which the Python extraction runs
without raising and with string leaves: every recognized section, when
present, has the container type the code navigates, and every address leaf,
when present, is a string.  Missing sections and missing leaves are allowed —
the code defaults them.
-/

/-- The field `k`, when present, is a string. -/
def strFieldOK (fs : List (String × JValue)) (k : String) : Bool :=
  match lookupField fs k with
  | none => true
  | some (.str _) => true
  | some _ => false

/-- A comp must be a dict whose `address`, when present, is a string. -/
def compOK : JValue → Bool
  | .obj cf => strFieldOK cf "address"
  | _ => false

/-- A rent group must be a dict whose `comps`, when present, is a list of
well-shaped comps. -/
def groupOK : JValue → Bool
  | .obj gf =>
    match lookupField gf "comps" with
    | none => true
    | some (.arr cs) => cs.all compOK
    | some _ => false
  | _ => false

/-- A `sale_comps` / `active_comps` / `rent_comps` section, when present,
must be a dict whose inner list (`comps` / `groups`), when present, is a
list of well-shaped items. -/
def sectionOK (fs : List (String × JValue)) (sec inner : String)
    (itemOK : JValue → Bool) : Bool :=
  match lookupField fs sec with
  | none => true
  | some (.obj sfs) =>
    match lookupField sfs inner with
    | none => true
    | some (.arr xs) => xs.all itemOK
    | some _ => false
  | some _ => false

/-- The `cover` section, when present, must be a dict with string (or
absent) address fields. -/
def coverOK (fs : List (String × JValue)) : Bool :=
  match lookupField fs "cover" with
  | none => true
  | some (.obj cfs) =>
    strFieldOK cfs "address_street" && strFieldOK cfs "address_city" &&
      strFieldOK cfs "address_state" && strFieldOK cfs "address_zip"
  | some _ => false

/-- Well-formed document: a dict whose recognized sections have the navigated
shapes (see section comment). -/
def wellFormed : JValue → Bool
  | .obj fs =>
    coverOK fs && sectionOK fs "sale_comps" "comps" compOK &&
      sectionOK fs "active_comps" "comps" compOK &&
      sectionOK fs "rent_comps" "groups" groupOK
  | _ => false

/-- The `cover` dict of a document (empty when absent). -/
def coverFields : JValue → List (String × JValue)
  | .obj fs =>
    match lookupField fs "cover" with
    | some (.obj cfs) => cfs
    | _ => []
  | _ => []

/-- A string leaf with the `''` default of `cover.get(k, '')`. -/
def strField (fs : List (String × JValue)) (k : String) : String :=
  match lookupField fs k with
  | some (.str s) => s
  | _ => ""

/-- The subject street, `cover.get('address_street', '')`. -/
def streetOf (d : JValue) : String := strField (coverFields d) "address_street"

/-- The subject city, `cover.get('address_city', '')`. -/
def cityOf (d : JValue) : String := strField (coverFields d) "address_city"

/-- The subject state, `cover.get('address_state', '')`. -/
def stateOf (d : JValue) : String := strField (coverFields d) "address_state"

/-- The subject zip, `cover.get('address_zip', '')`. -/
def zipOf (d : JValue) : String := strField (coverFields d) "address_zip"

/-- `data.get(sec, {}).get(inner, [])` as a plain list (empty if the section
is missing). -/
def sectionComps (d : JValue) (sec inner : String) : List JValue :=
  match d with
  | .obj fs =>
    match lookupField fs sec with
    | some (.obj sfs) =>
      match lookupField sfs inner with
      | some (.arr xs) => xs
      | _ => []
    | _ => []
  | _ => []

/-- `data.get('sale_comps', {}).get('comps', [])`. -/
def saleCompsOf (d : JValue) : List JValue := sectionComps d "sale_comps" "comps"

/-- `data.get('active_comps', {}).get('comps', [])`. -/
def activeCompsOf (d : JValue) : List JValue := sectionComps d "active_comps" "comps"

/-- `data.get('rent_comps', {}).get('groups', [])`. -/
def rentGroupsOf (d : JValue) : List JValue := sectionComps d "rent_comps" "groups"

/-- `group.get('comps', [])` of one rent group. -/
def groupCompsOf : JValue → List JValue
  | .obj gf =>
    match lookupField gf "comps" with
    | some (.arr cs) => cs
    | _ => []
  | _ => []

/-- `comp.get('address', '')` of one comparable. -/
def compAddrOf : JValue → String
  | .obj cf => strField cf "address"
  | _ => ""

/-!
The orchestrator, `geocode_all(addresses)`.

The external resolver is injected as a function from the call position to a
response: a location, a "not found" (`geocode` returned `None`), or a raised
exception carrying a message.  The state mirrors everything the loop
observably does: the `results` dict, the `success`/`failed` counters, the
number of `time.sleep(0.5)` calls performed, and the per-entry progress
lines.
-/

/-- Python `round(x, 6)`: round half to even at 6 decimal digits (modelled on
exact rationals). -/
def round6 (q : ℚ) : ℚ :=
  let scaled := q * 1000000
  let f : ℤ := Int.floor scaled
  let r : ℚ := scaled - f
  let n : ℤ :=
    if r < 1 / 2 then f
    else if 1 / 2 < r then f + 1
    else if f % 2 = 0 then f else f + 1
  (n : ℚ) / 1000000

/-- One response of the external geocoding capability for one call. -/
inductive Resp where
  | found (lat lon : ℚ)
  | notFound
  | raises (msg : String)

/-- The call returned a location. -/
def Resp.isFound : Resp → Bool
  | .found _ _ => true
  | _ => false

/-- The call returned `None`. -/
def Resp.isNotFound : Resp → Bool
  | .notFound => true
  | _ => false

/-- The call raised an exception. -/
def Resp.isRaises : Resp → Bool
  | .raises _ => true
  | _ => false

/-- One per-entry progress line printed by the loop: `OK ...`,
`FAIL ... NOT FOUND`, or `ERR ... <message>`. -/
inductive GeoLine where
  | ok (label : String) (lat lon : ℚ) (addr : String)
  | failNotFound (label addr : String)
  | err (label msg addr : String)

/-- Python `results[label] = value` on the insertion-ordered dict. -/
def dictInsert : List (String × GeoResult) → String → GeoResult → List (String × GeoResult)
  | [], k, v => [(k, v)]
  | (k', v') :: rest, k, v =>
    if k' = k then (k', v) :: rest else (k', v') :: dictInsert rest k v

/-- The `results[label]` record built for one entry from the resolver's
response (coordinates rounded to 6 decimals at creation). -/
def mkGeoResult (r : Resp) (e : AddrEntry) : GeoResult :=
  match r with
  | .found la lo => ⟨e.addr, some (round6 la, round6 lo), e.json_path, none⟩
  | .notFound => ⟨e.addr, none, e.json_path, none⟩
  | .raises m => ⟨e.addr, none, e.json_path, some m⟩

/-- Loop state of `geocode_all`: results dict, counters, number of sleeps
performed, progress lines printed. -/
structure GeoState where
  results : List (String × GeoResult)
  success : Nat
  failed : Nat
  sleeps : Nat
  lines : List GeoLine

/-- The body of the `for label, addr, json_path in addresses` loop, entry at
call position `i`.  On a location: record rounded coords, bump `success`,
sleep.  On `None`: record a no-coords outcome, bump `failed`, sleep.  On an
exception: record a no-coords outcome with the message, bump `failed` — the
`time.sleep` inside the `try` block is skipped. -/
def geocodeStep (r : Resp) (e : AddrEntry) (st : GeoState) : GeoState :=
  match r with
  | .found la lo =>
    ⟨dictInsert st.results e.label (mkGeoResult (.found la lo) e),
     st.success + 1, st.failed, st.sleeps + 1,
     st.lines ++ [GeoLine.ok e.label (round6 la) (round6 lo) e.addr]⟩
  | .notFound =>
    ⟨dictInsert st.results e.label (mkGeoResult .notFound e),
     st.success, st.failed + 1, st.sleeps + 1,
     st.lines ++ [GeoLine.failNotFound e.label e.addr]⟩
  | .raises m =>
    ⟨dictInsert st.results e.label (mkGeoResult (.raises m) e),
     st.success, st.failed + 1, st.sleeps,
     st.lines ++ [GeoLine.err e.label m e.addr]⟩

/-- The loop of `geocode_all`, indexed by call position.  Every entry is
processed: an exception is caught per entry and never aborts the batch. -/
def geocodeLoop (resolver : Nat → Resp) : Nat → List AddrEntry → GeoState → GeoState
  | _, [], st => st
  | i, e :: es, st => geocodeLoop resolver (i + 1) es (geocodeStep (resolver i) e st)

/-- `geocode_all(addresses)` with the injected resolver. -/
def geocode_all (resolver : Nat → Resp) (entries : List AddrEntry) : GeoState :=
  geocodeLoop resolver 0 entries ⟨[], 0, 0, 0, []⟩

/-- The final summary line `Total: {len} | Success: {success} | Failed:
{failed}` as its three printed numbers. -/
def finalSummary (resolver : Nat → Resp) (entries : List AddrEntry) : Nat × Nat × Nat :=
  (entries.length, (geocode_all resolver entries).success,
    (geocode_all resolver entries).failed)

/-- The expected `results` dict contents: one record per entry, in entry
order, each built from the response at its call position. -/
def runResults (resolver : Nat → Resp) : Nat → List AddrEntry → List (String × GeoResult)
  | _, [] => []
  | i, e :: es => (e.label, mkGeoResult (resolver i) e) :: runResults resolver (i + 1) es


/-!
Association-list and single-step lemmas about the merge primitives.
-/

theorem list_set_self {α : Type _} (xs : List α) (i : Nat) (hi : i < xs.length) :
    xs.set i (xs.get ⟨i, hi⟩) = xs := by
  apply List.ext_getElem
  · simp
  · intro n h1 h2
    rw [List.getElem_set]
    split
    · next h => subst h; rfl
    · rfl

theorem lookupField_setField_self (fs : List (String × JValue)) (k : String) (v : JValue) :
    lookupField (setField fs k v) k = some v := by
  induction fs with
  | nil => simp [setField, lookupField]
  | cons f fs ih =>
    obtain ⟨k', v'⟩ := f
    by_cases h : k' = k
    · simp [setField, lookupField, h]
    · simp [setField, lookupField, h, ih]

theorem lookupField_setField_ne (fs : List (String × JValue)) {k k' : String}
    (h : k' ≠ k) (v : JValue) :
    lookupField (setField fs k v) k' = lookupField fs k' := by
  have hk : k ≠ k' := fun hh => h hh.symm
  induction fs with
  | nil => simp [setField, lookupField, hk]
  | cons f fs ih =>
    obtain ⟨k0, v0⟩ := f
    by_cases h0 : k0 = k
    · subst h0
      simp [setField, lookupField, hk]
    · simp only [setField, if_neg h0, lookupField, ih]

theorem setField_of_lookupField {fs : List (String × JValue)} {k : String} {v : JValue}
    (h : lookupField fs k = some v) : setField fs k v = fs := by
  induction fs with
  | nil => simp [lookupField] at h
  | cons f fs ih =>
    obtain ⟨k0, v0⟩ := f
    by_cases h0 : k0 = k
    · simp only [lookupField, if_pos h0, Option.some.injEq] at h
      simp [setField, h0, h]
    · simp only [lookupField, if_neg h0] at h
      simp [setField, h0, ih h]

theorem getStep_setStep_self {d d' : JValue} {s : Step} {v : JValue}
    (h : setStep d s v = some d') : getStep d' s = some v := by
  cases d <;> cases s <;> simp only [setStep] at h <;>
    first
    | exact Option.noConfusion h
    | skip
  case obj.key fs k =>
    cases h
    simp [getStep, lookupField_setField_self]
  case arr.idx xs i =>
    by_cases hi : i < xs.length
    · rw [if_pos hi] at h
      cases h
      simp [getStep, List.getElem?_set_self hi]
    · rw [if_neg hi] at h
      exact Option.noConfusion h

theorem getStep_setStep_ne {d d' : JValue} {s t : Step} {w : JValue}
    (hne : s ≠ t) (h : setStep d t w = some d') : getStep d' s = getStep d s := by
  cases d <;> cases t <;> simp only [setStep] at h <;>
    first
    | exact Option.noConfusion h
    | skip
  case obj.key fs k =>
    cases h
    cases s with
    | key k' =>
      have hk : k' ≠ k := by intro hh; exact hne (by simp [hh])
      simp [getStep, lookupField_setField_ne _ hk]
    | idx i => simp [getStep]
  case arr.idx xs j =>
    by_cases hj : j < xs.length
    · rw [if_pos hj] at h
      cases h
      cases s with
      | key k' => simp [getStep]
      | idx i =>
        have hij : i ≠ j := by intro hh; exact hne (by simp [hh])
        simp only [getStep]
        exact List.getElem?_set_ne (Ne.symm hij)
    · rw [if_neg hj] at h
      exact Option.noConfusion h

theorem setStep_of_getStep {d : JValue} {s : Step} {v : JValue}
    (h : getStep d s = some v) : setStep d s v = some d := by
  cases d <;> cases s <;> simp only [getStep] at h <;>
    first
    | exact Option.noConfusion h
    | skip
  case obj.key fs k =>
    simp [setStep, setField_of_lookupField h]
  case arr.idx xs i =>
    have hi : i < xs.length := by
      by_contra hc
      rw [List.getElem?_eq_none (by omega)] at h
      exact Option.noConfusion h
    have hv : xs.get ⟨i, hi⟩ = v := by
      have hg := List.getElem?_eq_getElem hi
      rw [hg] at h
      cases h
      rfl
    simp only [setStep, if_pos hi]
    rw [← hv, list_set_self]

theorem setStep_setStep_self {d d' : JValue} {s : Step} {v : JValue}
    (h : setStep d s v = some d') : setStep d' s v = some d' :=
  setStep_of_getStep (getStep_setStep_self h)

theorem setStep_isSome_congr (d : JValue) (s : Step) (v w : JValue) :
    (setStep d s v).isSome = (setStep d s w).isSome := by
  cases d <;> cases s <;> simp only [setStep] <;> try rfl
  case arr.idx xs i =>
    by_cases hi : i < xs.length <;> simp [hi]

theorem setStep_isSome_of_getStep {d : JValue} {s : Step} {c : JValue}
    (h : getStep d s = some c) (v : JValue) : (setStep d s v).isSome = true := by
  cases d <;> cases s <;> simp only [getStep] at h <;>
    first
    | exact Option.noConfusion h
    | skip
  case obj.key fs k => simp [setStep]
  case arr.idx xs i =>
    have hi : i < xs.length := by
      by_contra hc
      rw [List.getElem?_eq_none (by omega)] at h
      exact Option.noConfusion h
    simp [setStep, hi]

/-!
Path-level lemmas: reading back a written path, frame properties for
incomparable paths, and value-independence of navigation success.
-/

theorem setPath_nil_eq (d : JValue) (v : JValue) : setPath d [] v = none := rfl

theorem setPath_single_eq (d : JValue) (s : Step) (v : JValue) :
    setPath d [s] v = setStep d s v := rfl

theorem setPath_cons2_eq (d : JValue) (s s2 : Step) (rest : List Step) (v : JValue) :
    setPath d (s :: s2 :: rest) v =
      (getStep d s).bind fun child =>
        (setPath child (s2 :: rest) v).bind fun child2 => setStep d s child2 := rfl

theorem getPath_nil_eq (d : JValue) : getPath d [] = some d := rfl

theorem getPath_cons_eq (d : JValue) (s : Step) (rest : List Step) :
    getPath d (s :: rest) = (getStep d s).bind fun c => getPath c rest := rfl

theorem incomp_nil_left (q : List Step) : incomp [] q = false := by
  simp [incomp, List.isPrefixOf]

theorem incomp_cons_same (s : Step) (p q : List Step) :
    incomp (s :: p) (s :: q) = incomp p q := by
  simp [incomp, List.isPrefixOf]

theorem getStep_setPath_ne {t s : Step} {p' : List Step} {d d' w : JValue}
    (hne : t ≠ s) (h : setPath d (s :: p') w = some d') :
    getStep d' t = getStep d t := by
  cases p' with
  | nil => exact getStep_setStep_ne hne h
  | cons s2 rest =>
    rw [setPath_cons2_eq, Option.bind_eq_some] at h
    obtain ⟨child, hg, h2⟩ := h
    rw [Option.bind_eq_some] at h2
    obtain ⟨child2, hsp, hset⟩ := h2
    exact getStep_setStep_ne hne hset

theorem setStep_shape {d d' : JValue} {s : Step} {x : JValue}
    (h : setStep d s x = some d') (t : Step) (v : JValue) :
    (setStep d' t v).isSome = (setStep d t v).isSome := by
  cases d <;> cases s <;> simp only [setStep] at h <;>
    first
    | exact Option.noConfusion h
    | skip
  case obj.key fs k =>
    cases h
    cases t <;> simp [setStep]
  case arr.idx xs i =>
    by_cases hi : i < xs.length
    · rw [if_pos hi] at h
      cases h
      cases t with
      | key k => simp [setStep]
      | idx j => by_cases hj : j < xs.length <;> simp [setStep, hj]
    · rw [if_neg hi] at h
      exact Option.noConfusion h

theorem setPath_shape {d d' : JValue} {s : Step} {p' : List Step} {w : JValue}
    (h : setPath d (s :: p') w = some d') (t : Step) (v : JValue) :
    (setStep d' t v).isSome = (setStep d t v).isSome := by
  cases p' with
  | nil => exact setStep_shape h t v
  | cons s2 rest =>
    rw [setPath_cons2_eq, Option.bind_eq_some] at h
    obtain ⟨child, hg, h2⟩ := h
    rw [Option.bind_eq_some] at h2
    obtain ⟨child2, hsp, hset⟩ := h2
    exact setStep_shape hset t v

theorem getPath_setPath_self : ∀ (p : List Step) (d d' v : JValue),
    setPath d p v = some d' → getPath d' p = some v
  | [], d, d', v => by
    intro h
    exact Option.noConfusion h
  | [s], d, d', v => by
    intro h
    have hg := getStep_setStep_self h
    rw [getPath_cons_eq, hg]
    rfl
  | s :: s2 :: rest, d, d', v => by
    intro h
    rw [setPath_cons2_eq, Option.bind_eq_some] at h
    obtain ⟨child, hg, h2⟩ := h
    rw [Option.bind_eq_some] at h2
    obtain ⟨child2, hsp, hset⟩ := h2
    have hgd' := getStep_setStep_self hset
    rw [getPath_cons_eq, hgd']
    simpa using getPath_setPath_self (s2 :: rest) child child2 v hsp

theorem setPath_of_getPath : ∀ (p : List Step) (d v : JValue), p ≠ [] →
    getPath d p = some v → setPath d p v = some d
  | [], d, v => by
    intro h _
    exact absurd rfl h
  | [s], d, v => by
    intro _ h
    rw [getPath_cons_eq, Option.bind_eq_some] at h
    obtain ⟨c, hg, hc⟩ := h
    rw [getPath_nil_eq] at hc
    cases hc
    exact setStep_of_getStep hg
  | s :: s2 :: rest, d, v => by
    intro _ h
    rw [getPath_cons_eq, Option.bind_eq_some] at h
    obtain ⟨c, hg, hrest⟩ := h
    have hIH := setPath_of_getPath (s2 :: rest) c v (by simp) hrest
    rw [setPath_cons2_eq, Option.bind_eq_some]
    refine ⟨c, hg, ?_⟩
    rw [Option.bind_eq_some]
    exact ⟨c, hIH, setStep_of_getStep hg⟩

theorem getPath_frame : ∀ (q : List Step) (p : List Step) (d d' w : JValue),
    incomp q p = true → setPath d p w = some d' → getPath d' q = getPath d q
  | [], p, d, d', w => by
    intro hq _
    rw [incomp_nil_left] at hq
    exact Bool.noConfusion hq
  | t :: q', p, d, d', w => by
    intro hq h
    cases p with
    | nil => exact Option.noConfusion h
    | cons s p' =>
      by_cases hst : s = t
      · subst hst
        cases p' with
        | nil =>
          exfalso
          have hfalse : incomp (s :: q') [s] = false := by
            simp [incomp, List.isPrefixOf]
          rw [hfalse] at hq
          exact Bool.noConfusion hq
        | cons s2 rest =>
          rw [setPath_cons2_eq, Option.bind_eq_some] at h
          obtain ⟨child, hg, h2⟩ := h
          rw [Option.bind_eq_some] at h2
          obtain ⟨child2, hsp, hset⟩ := h2
          have hgd' : getStep d' s = some child2 := getStep_setStep_self hset
          have hq' : incomp q' (s2 :: rest) = true := by
            rw [incomp_cons_same] at hq
            exact hq
          rw [getPath_cons_eq, getPath_cons_eq, hgd', hg]
          simp only [Option.some_bind]
          exact getPath_frame q' (s2 :: rest) child child2 w hq' hsp
      · have hgeq : getStep d' t = getStep d t :=
          getStep_setPath_ne (fun hh => hst hh.symm) h
        rw [getPath_cons_eq, getPath_cons_eq, hgeq]

theorem setPath_isSome_congr : ∀ (p : List Step) (d : JValue) (v w : JValue),
    (setPath d p v).isSome = (setPath d p w).isSome
  | [], d, v, w => rfl
  | [s], d, v, w => setStep_isSome_congr d s v w
  | s :: s2 :: rest, d, v, w => by
    rw [setPath_cons2_eq, setPath_cons2_eq]
    cases hg : getStep d s with
    | none => rfl
    | some child =>
      simp only [Option.some_bind]
      have hIH := setPath_isSome_congr (s2 :: rest) child v w
      cases hv : setPath child (s2 :: rest) v with
      | none =>
        cases hw : setPath child (s2 :: rest) w with
        | none => rfl
        | some cw => rw [hv, hw] at hIH; simp at hIH
      | some cv =>
        cases hw : setPath child (s2 :: rest) w with
        | none => rw [hv, hw] at hIH; simp at hIH
        | some cw =>
          simp only [Option.some_bind]
          exact setStep_isSome_congr d s cv cw

theorem setPath_isSome_frame : ∀ (q : List Step) (p : List Step) (d d' w v : JValue),
    incomp q p = true → setPath d p w = some d' →
    (setPath d' q v).isSome = (setPath d q v).isSome
  | [], p, d, d', w, v => by
    intro _ _
    rfl
  | [t], p, d, d', w, v => by
    intro hq h
    cases p with
    | nil => exact Option.noConfusion h
    | cons s p' =>
      by_cases hst : s = t
      · subst hst
        exfalso
        have hfalse : incomp [s] (s :: p') = false := by
          simp [incomp, List.isPrefixOf]
        rw [hfalse] at hq
        exact Bool.noConfusion hq
      · exact setPath_shape h t v
  | t :: t2 :: q'', p, d, d', w, v => by
    intro hq h
    cases p with
    | nil => exact Option.noConfusion h
    | cons s p' =>
      by_cases hst : s = t
      · subst hst
        cases p' with
        | nil =>
          exfalso
          have hfalse : incomp (s :: t2 :: q'') [s] = false := by
            simp [incomp, List.isPrefixOf]
          rw [hfalse] at hq
          exact Bool.noConfusion hq
        | cons s2 rest =>
          rw [setPath_cons2_eq] at h
          rw [Option.bind_eq_some] at h
          obtain ⟨child, hg, h2⟩ := h
          rw [Option.bind_eq_some] at h2
          obtain ⟨child2, hsp, hset⟩ := h2
          have hgd' : getStep d' s = some child2 := getStep_setStep_self hset
          have hq' : incomp (t2 :: q'') (s2 :: rest) = true := by
            rw [incomp_cons_same] at hq
            exact hq
          rw [setPath_cons2_eq, setPath_cons2_eq, hgd', hg]
          simp only [Option.some_bind]
          have hIH := setPath_isSome_frame (t2 :: q'') (s2 :: rest) child child2 w v hq' hsp
          cases hv : setPath child2 (t2 :: q'') v with
          | none =>
            cases hw : setPath child (t2 :: q'') v with
            | none => rfl
            | some cw => rw [hv, hw] at hIH; simp at hIH
          | some cv =>
            cases hw : setPath child (t2 :: q'') v with
            | none => rw [hv, hw] at hIH; simp at hIH
            | some cw =>
              simp only [Option.some_bind]
              exact (setStep_isSome_congr d' s cv cw).trans (setStep_shape hset s cw)
      · have hgeq : getStep d' t = getStep d t :=
          getStep_setPath_ne (fun hh => hst hh.symm) h
        rw [setPath_cons2_eq, setPath_cons2_eq, hgeq]
        cases hg : getStep d t with
        | none => rfl
        | some c =>
          simp only [Option.some_bind]
          cases hv : setPath c (t2 :: q'') v with
          | none => rfl
          | some c2 =>
            simp only [Option.some_bind]
            exact setPath_shape h t c2

/-!
Lemmas about the whole merge loop `update_json`.
-/

theorem update_json_nil (d : JValue) : update_json d [] = some d := rfl

theorem update_json_cons (d : JValue) (r : String × GeoResult)
    (rest : List (String × GeoResult)) :
    update_json d (r :: rest) = (mergeStep d r).bind fun d1 => update_json d1 rest := rfl

theorem incomp_comm (p q : List Step) : incomp p q = incomp q p := by
  simp [incomp, Bool.and_comm]

theorem update_json_filter : ∀ (rs : List (String × GeoResult)) (d : JValue),
    update_json d rs = update_json d (rs.filter fun r => r.2.coords.isSome)
  | [], d => rfl
  | r :: rest, d => by
    by_cases hc : r.2.coords.isSome = true
    · have hfc : List.filter (fun r => r.2.coords.isSome) (r :: rest) =
          r :: List.filter (fun r => r.2.coords.isSome) rest := by
        simp [List.filter_cons, hc]
      rw [hfc, update_json_cons, update_json_cons]
      cases hm : mergeStep d r with
      | none => rfl
      | some d1 =>
        simp only [Option.some_bind]
        exact update_json_filter rest d1
    · have hcf : r.2.coords = none := by
        cases hr : r.2.coords
        · rfl
        · rw [hr] at hc; simp at hc
      have hfc : List.filter (fun r => r.2.coords.isSome) (r :: rest) =
          List.filter (fun r => r.2.coords.isSome) rest := by
        simp [List.filter_cons, hc]
      rw [hfc, update_json_cons]
      have hm : mergeStep d r = some d := by simp [mergeStep, hcf]
      rw [hm, Option.some_bind]
      exact update_json_filter rest d

theorem getPath_update_frame : ∀ (rs : List (String × GeoResult)) (d d1 : JValue)
    (q : List Step),
    (∀ r ∈ rs, r.2.coords.isSome = true → incomp q r.2.json_path = true) →
    update_json d rs = some d1 → getPath d1 q = getPath d q
  | [], d, d1, q => by
    intro _ h
    rw [update_json_nil] at h
    cases h
    rfl
  | r :: rest, d, d1, q => by
    intro hq h
    rw [update_json_cons, Option.bind_eq_some] at h
    obtain ⟨d2, hm, hrest⟩ := h
    have h2 : getPath d2 q = getPath d q := by
      cases hc : r.2.coords with
      | none =>
        have hmd : mergeStep d r = some d := by simp [mergeStep, hc]
        rw [hmd] at hm
        cases hm
        rfl
      | some c =>
        have hset : setPath d r.2.json_path (.arr [.num c.1, .num c.2]) = some d2 := by
          simpa [mergeStep, hc] using hm
        exact getPath_frame q r.2.json_path d d2 _
          (hq r (by simp) (by simp [hc])) hset
    rw [← h2]
    exact getPath_update_frame rest d2 d1 q (fun r' hr' => hq r' (by simp [hr'])) hrest

theorem update_json_idem : ∀ (rs : List (String × GeoResult)) (d d1 : JValue),
    PairwiseIncomp rs → update_json d rs = some d1 → update_json d1 rs = some d1
  | [], d, d1 => by
    intro _ h
    rw [update_json_nil] at h
    cases h
    rfl
  | r :: rest, d, d1 => by
    intro hp h
    obtain ⟨hphead, hptail⟩ := List.pairwise_cons.mp hp
    rw [update_json_cons, Option.bind_eq_some] at h
    obtain ⟨dW, hm, hrest⟩ := h
    rw [update_json_cons, Option.bind_eq_some]
    cases hc : r.2.coords with
    | none =>
      have hmd : mergeStep d r = some d := by simp [mergeStep, hc]
      have hmd1 : mergeStep d1 r = some d1 := by simp [mergeStep, hc]
      exact ⟨d1, hmd1, update_json_idem rest dW d1 hptail hrest⟩
    | some c =>
      have hset : setPath d r.2.json_path (.arr [.num c.1, .num c.2]) = some dW := by
        simpa [mergeStep, hc] using hm
      have hpne : r.2.json_path ≠ [] := by
        intro hnil
        rw [hnil] at hset
        exact Option.noConfusion hset
      have hval : getPath dW r.2.json_path = some (.arr [.num c.1, .num c.2]) :=
        getPath_setPath_self _ _ _ _ hset
      have hval1 : getPath d1 r.2.json_path = some (.arr [.num c.1, .num c.2]) := by
        have hfr := getPath_update_frame rest dW d1 r.2.json_path
          (fun r' hr' hc' => hphead r' hr' (by simp [hc]) hc') hrest
        rw [hfr]
        exact hval
      have hset1 : setPath d1 r.2.json_path (.arr [.num c.1, .num c.2]) = some d1 :=
        setPath_of_getPath _ _ _ hpne hval1
      have hmd1 : mergeStep d1 r = some d1 := by simp [mergeStep, hc, hset1]
      exact ⟨d1, hmd1, update_json_idem rest dW d1 hptail hrest⟩

theorem update_json_isSome : ∀ (rs : List (String × GeoResult)) (d : JValue),
    PairwiseIncomp rs →
    (∀ r ∈ rs, r.2.coords.isSome = true → writable d r.2.json_path = true) →
    (update_json d rs).isSome = true
  | [], d => by
    intro _ _
    rfl
  | r :: rest, d => by
    intro hp hw
    obtain ⟨hphead, hptail⟩ := List.pairwise_cons.mp hp
    rw [update_json_cons]
    cases hc : r.2.coords with
    | none =>
      have hmd : mergeStep d r = some d := by simp [mergeStep, hc]
      rw [hmd, Option.some_bind]
      exact update_json_isSome rest d hptail (fun r' h' hc' => hw r' (by simp [h']) hc')
    | some c =>
      have hwr : writable d r.2.json_path = true := hw r (by simp) (by simp [hc])
      have hsome : (setPath d r.2.json_path (.arr [.num c.1, .num c.2])).isSome = true := by
        rw [setPath_isSome_congr _ _ _ JValue.null]
        exact hwr
      obtain ⟨dW, hset⟩ := Option.isSome_iff_exists.mp hsome
      have hmd : mergeStep d r = some dW := by simp [mergeStep, hc, hset]
      rw [hmd, Option.some_bind]
      apply update_json_isSome rest dW hptail
      intro r' h' hc'
      have hwd : writable d r'.2.json_path = true := hw r' (by simp [h']) hc'
      have hinc : incomp r'.2.json_path r.2.json_path = true := by
        rw [incomp_comm]
        exact hphead r' h' (by simp [hc]) hc'
      have hfr := setPath_isSome_frame r'.2.json_path r.2.json_path d dW
        (.arr [.num c.1, .num c.2]) JValue.null hinc hset
      unfold writable
      rw [hfr]
      exact hwd

/-!
Lemmas about the orchestrator loop `geocode_all`.
-/

theorem dictInsert_append : ∀ (l : List (String × GeoResult)) (k : String) (v : GeoResult),
    k ∉ l.map Prod.fst → dictInsert l k v = l ++ [(k, v)]
  | [], k, v => by
    intro _
    rfl
  | (k', v') :: rest, k, v => by
    intro h
    have hne : k' ≠ k := by
      intro hh
      exact h (by simp [hh])
    simp only [dictInsert, if_neg hne, List.cons_append, List.cons.injEq, true_and]
    exact dictInsert_append rest k v (fun hh => h (by simp [hh]))

theorem geocodeStep_results (r : Resp) (e : AddrEntry) (st : GeoState)
    (hfresh : e.label ∉ st.results.map Prod.fst) :
    (geocodeStep r e st).results = st.results ++ [(e.label, mkGeoResult r e)] := by
  cases r <;> simp only [geocodeStep, mkGeoResult] <;>
    exact dictInsert_append _ _ _ hfresh

theorem geocodeLoop_results (resolver : Nat → Resp) :
    ∀ (es : List AddrEntry) (i : Nat) (st : GeoState),
    (es.map (·.label)).Nodup →
    (∀ l ∈ es.map (·.label), l ∉ st.results.map Prod.fst) →
    (geocodeLoop resolver i es st).results = st.results ++ runResults resolver i es
  | [], i, st => by
    intro _ _
    simp [geocodeLoop, runResults]
  | e :: es, i, st => by
    intro hnd hdis
    have hfresh : e.label ∉ st.results.map Prod.fst := hdis e.label (by simp)
    have hstep := geocodeStep_results (resolver i) e st hfresh
    rw [List.map_cons, List.nodup_cons] at hnd
    obtain ⟨hhead, hndtail⟩ := hnd
    rw [geocodeLoop, geocodeLoop_results resolver es (i + 1) _ hndtail ?hdis2]
    case hdis2 =>
      intro l hl
      rw [hstep]
      simp only [List.map_append, List.map_cons, List.map_nil, List.mem_append]
      rintro (hin | hin)
      · exact hdis l (by simp [hl]) hin
      · simp at hin
        rw [hin] at hl
        exact hhead (by simpa using hl)
    rw [hstep, List.append_assoc]
    rfl

theorem runResults_map_fst (resolver : Nat → Resp) :
    ∀ (es : List AddrEntry) (i : Nat),
    (runResults resolver i es).map Prod.fst = es.map (·.label)
  | [], _ => rfl
  | e :: es, i => by
    simp only [runResults, List.map_cons, List.cons.injEq, true_and]
    exact runResults_map_fst resolver es (i + 1)

theorem runResults_length (resolver : Nat → Resp) :
    ∀ (es : List AddrEntry) (i : Nat), (runResults resolver i es).length = es.length
  | [], _ => rfl
  | e :: es, i => by
    simp only [runResults, List.length_cons]
    rw [runResults_length resolver es (i + 1)]

theorem runResults_getElem? (resolver : Nat → Resp) :
    ∀ (es : List AddrEntry) (i j : Nat) (e : AddrEntry), es[j]? = some e →
    (runResults resolver i es)[j]? = some (e.label, mkGeoResult (resolver (i + j)) e)
  | [], i, j, e => by
    intro h
    simp at h
  | x :: xs, i, 0, e => by
    intro h
    simp only [List.getElem?_cons_zero, Option.some.injEq] at h
    subst h
    simp [runResults]
  | x :: xs, i, j + 1, e => by
    intro h
    simp only [List.getElem?_cons_succ] at h
    have := runResults_getElem? resolver xs (i + 1) j e h
    simp only [runResults, List.getElem?_cons_succ]
    rw [this]
    have harith : i + 1 + j = i + (j + 1) := by omega
    rw [harith]

theorem geocodeStep_success (r : Resp) (e : AddrEntry) (st : GeoState) :
    (geocodeStep r e st).success = st.success + (if r.isFound then 1 else 0) := by
  cases r <;> simp [geocodeStep, Resp.isFound]

theorem geocodeStep_failed (r : Resp) (e : AddrEntry) (st : GeoState) :
    (geocodeStep r e st).failed =
      st.failed + (if r.isNotFound || r.isRaises then 1 else 0) := by
  cases r <;> simp [geocodeStep, Resp.isNotFound, Resp.isRaises]

theorem geocodeStep_sleeps (r : Resp) (e : AddrEntry) (st : GeoState) :
    (geocodeStep r e st).sleeps =
      st.sleeps + (if r.isFound || r.isNotFound then 1 else 0) := by
  cases r <;> simp [geocodeStep, Resp.isFound, Resp.isNotFound]

theorem geocodeLoop_success (resolver : Nat → Resp) :
    ∀ (es : List AddrEntry) (i : Nat) (st : GeoState),
    (geocodeLoop resolver i es st).success =
      st.success + (List.range' i es.length).countP (fun j => (resolver j).isFound)
  | [], i, st => by simp [geocodeLoop]
  | e :: es, i, st => by
    rw [geocodeLoop, geocodeLoop_success resolver es (i + 1) _, geocodeStep_success]
    show _ = st.success + (List.countP _ (i :: List.range' (i + 1) es.length))
    rw [List.countP_cons]
    omega

theorem geocodeLoop_failed (resolver : Nat → Resp) :
    ∀ (es : List AddrEntry) (i : Nat) (st : GeoState),
    (geocodeLoop resolver i es st).failed =
      st.failed + (List.range' i es.length).countP
        (fun j => (resolver j).isNotFound || (resolver j).isRaises)
  | [], i, st => by simp [geocodeLoop]
  | e :: es, i, st => by
    rw [geocodeLoop, geocodeLoop_failed resolver es (i + 1) _, geocodeStep_failed]
    show _ = st.failed + (List.countP _ (i :: List.range' (i + 1) es.length))
    rw [List.countP_cons]
    omega

theorem geocodeLoop_sleeps (resolver : Nat → Resp) :
    ∀ (es : List AddrEntry) (i : Nat) (st : GeoState),
    (geocodeLoop resolver i es st).sleeps =
      st.sleeps + (List.range' i es.length).countP
        (fun j => (resolver j).isFound || (resolver j).isNotFound)
  | [], i, st => by simp [geocodeLoop]
  | e :: es, i, st => by
    rw [geocodeLoop, geocodeLoop_sleeps resolver es (i + 1) _, geocodeStep_sleeps]
    show _ = st.sleeps + (List.countP _ (i :: List.range' (i + 1) es.length))
    rw [List.countP_cons]
    omega

theorem countP_or_disjoint {α : Type _} (p q : α → Bool) :
    ∀ (l : List α), (∀ x ∈ l, ¬(p x = true ∧ q x = true)) →
    l.countP (fun x => p x || q x) = l.countP p + l.countP q
  | [] => by
    intro _
    simp
  | x :: l => by
    intro h
    rw [List.countP_cons, List.countP_cons, List.countP_cons,
      countP_or_disjoint p q l (fun y hy => h y (by simp [hy]))]
    have hx := h x (by simp)
    cases hp : p x <;> cases hq : q x <;> simp_all <;> omega

/-!
Canonical form of `extract_addresses` on well-formed documents.
-/

/-- The entry list `extract_addresses` produces, written with the document
selectors: the subject entry, then one entry per sale comp, active comp and
rent comp, in extraction order. -/
def entriesOf (d : JValue) : List AddrEntry :=
  ⟨"subject", mkSubjectAddr (streetOf d) (cityOf d) (stateOf d) (zipOf d), subjectPath⟩ ::
    (idxMap (fun i c =>
        ⟨sLab i, mkCompAddr (compAddrOf c) (mkCityState (cityOf d) (stateOf d) (zipOf d)),
         salePath i⟩) 0 (saleCompsOf d)
      ++ idxMap (fun i c =>
        ⟨aLab i, mkCompAddr (compAddrOf c) (mkCityState (cityOf d) (stateOf d) (zipOf d)),
         activePath i⟩) 0 (activeCompsOf d)
      ++ (idxMap (fun gi g => idxMap (fun ci c =>
          ⟨rLab gi ci, mkCompAddr (compAddrOf c) (mkCityState (cityOf d) (stateOf d) (zipOf d)),
           rentPath gi ci⟩) 0 (groupCompsOf g)) 0 (rentGroupsOf d)).flatten)

theorem pyGetStr_eq {cfs : List (String × JValue)} {k : String}
    (h : strFieldOK cfs k = true) :
    pyGetStr (.obj cfs) k = some (strField cfs k) := by
  unfold strFieldOK at h
  unfold pyGetStr strField
  cases hc : lookupField cfs k with
  | none => simp [hc]
  | some v =>
    rw [hc] at h
    cases v <;> simp_all

theorem pyGet_cover {fs : List (String × JValue)} (h : coverOK fs = true) :
    pyGet (.obj fs) "cover" (.obj []) = some (.obj (coverFields (.obj fs))) := by
  unfold coverOK at h
  unfold pyGet coverFields
  cases hc : lookupField fs "cover" with
  | none => simp [hc]
  | some cv =>
    rw [hc] at h
    cases cv <;> simp_all

theorem coverFields_ok {fs : List (String × JValue)} (h : coverOK fs = true) :
    strFieldOK (coverFields (.obj fs)) "address_street" = true ∧
    strFieldOK (coverFields (.obj fs)) "address_city" = true ∧
    strFieldOK (coverFields (.obj fs)) "address_state" = true ∧
    strFieldOK (coverFields (.obj fs)) "address_zip" = true := by
  unfold coverOK at h
  unfold coverFields
  cases hc : lookupField fs "cover" with
  | none => simp [strFieldOK, lookupField, hc]
  | some cv =>
    rw [hc] at h
    cases cv <;> simp_all

theorem section_chain {fs : List (String × JValue)} (sec inner : String)
    (itemOK : JValue → Bool) (h : sectionOK fs sec inner itemOK = true) :
    ∃ secv, pyGet (.obj fs) sec (.obj []) = some secv ∧
      ∃ innv, pyGet secv inner (.arr []) = some innv ∧
        asList innv = some (sectionComps (.obj fs) sec inner) ∧
        ∀ c ∈ sectionComps (.obj fs) sec inner, itemOK c = true := by
  unfold sectionOK at h
  cases hc : lookupField fs sec with
  | none =>
    exact ⟨.obj [], by simp [pyGet, hc], .arr [],
      by simp [pyGet, lookupField], by simp [asList, sectionComps, hc],
      by simp [sectionComps, hc]⟩
  | some sv =>
    rw [hc] at h
    cases sv <;> try simp at h
    case obj sfs =>
      cases hi : lookupField sfs inner with
      | none =>
        exact ⟨.obj sfs, by simp [pyGet, hc], .arr [], by simp [pyGet, hi],
          by simp [asList, sectionComps, hc, hi], by simp [sectionComps, hc, hi]⟩
      | some iv =>
        rw [hi] at h
        cases iv <;> try simp at h
        case arr xs =>
          refine ⟨.obj sfs, by simp [pyGet, hc], .arr xs, by simp [pyGet, hi],
            by simp [asList, sectionComps, hc, hi], ?_⟩
          intro c hcmem
          exact h c (by simpa [sectionComps, hc, hi] using hcmem)

theorem group_chain {g : JValue} (h : groupOK g = true) :
    ∃ cv, pyGet g "comps" (.arr []) = some cv ∧
      asList cv = some (groupCompsOf g) ∧
      ∀ c ∈ groupCompsOf g, compOK c = true := by
  unfold groupOK at h
  cases g <;> try simp at h
  case obj gf =>
    cases hc : lookupField gf "comps" with
    | none =>
      exact ⟨.arr [], by simp [pyGet, hc], by simp [asList, groupCompsOf, hc],
        by simp [groupCompsOf, hc]⟩
    | some cv =>
      rw [hc] at h
      cases cv <;> try simp at h
      case arr cs =>
        refine ⟨.arr cs, by simp [pyGet, hc], by simp [asList, groupCompsOf, hc], ?_⟩
        intro c hcmem
        exact h c (by simpa [groupCompsOf, hc] using hcmem)

theorem compEntry_eq {c : JValue} (h : compOK c = true) (lab cs : String)
    (path : List Step) :
    compEntry lab cs path c = some ⟨lab, mkCompAddr (compAddrOf c) cs, path⟩ := by
  unfold compOK at h
  cases c <;> try simp at h
  case obj cf =>
    unfold compEntry pyGetStr compAddrOf strField
    unfold strFieldOK at h
    cases hc : lookupField cf "address" with
    | none => simp [hc]
    | some v =>
      rw [hc] at h
      cases v <;> simp_all

theorem optIdxMap_eq {α β : Type _} (f : Nat → α → Option β) (g : Nat → α → β) :
    ∀ (l : List α), (∀ x ∈ l, ∀ i, f i x = some (g i x)) → ∀ s,
      optIdxMap f s l = some (idxMap g s l)
  | [] => by
    intro _ s
    rfl
  | x :: xs => by
    intro h s
    have hx := h x (by simp) s
    have hxs := optIdxMap_eq f g xs (fun y hy => h y (by simp [hy])) (s + 1)
    simp [optIdxMap, idxMap, hx, hxs]

theorem extract_eq {d : JValue} (h : wellFormed d = true) :
    extract_addresses d = some (entriesOf d) := by
  cases d
  case null => simp [wellFormed] at h
  case bool b => simp [wellFormed] at h
  case num q => simp [wellFormed] at h
  case str s => simp [wellFormed] at h
  case arr xs => simp [wellFormed] at h
  case obj fs =>
    simp only [wellFormed, Bool.and_eq_true] at h
    obtain ⟨⟨⟨hcov, hsale⟩, hact⟩, hrent⟩ := h
    have hc1 := pyGet_cover hcov
    obtain ⟨hs1, hs2, hs3, hs4⟩ := coverFields_ok hcov
    have hstreet := pyGetStr_eq hs1
    have hcity := pyGetStr_eq hs2
    have hstate := pyGetStr_eq hs3
    have hzip := pyGetStr_eq hs4
    obtain ⟨saleSec, hsec1, saleJ, hsec2, hsec3, hsaleOK⟩ :=
      section_chain "sale_comps" "comps" compOK hsale
    obtain ⟨actSec, hact1, actJ, hact2, hact3, hactOK⟩ :=
      section_chain "active_comps" "comps" compOK hact
    obtain ⟨rentSec, hrent1, rentJ, hrent2, hrent3, hrentOK⟩ :=
      section_chain "rent_comps" "groups" groupOK hrent
    have hsaleMap := optIdxMap_eq
      (fun i c => compEntry (sLab i)
        (mkCityState (strField (coverFields (.obj fs)) "address_city")
          (strField (coverFields (.obj fs)) "address_state")
          (strField (coverFields (.obj fs)) "address_zip")) (salePath i) c)
      (fun i c => ⟨sLab i, mkCompAddr (compAddrOf c)
        (mkCityState (strField (coverFields (.obj fs)) "address_city")
          (strField (coverFields (.obj fs)) "address_state")
          (strField (coverFields (.obj fs)) "address_zip")), salePath i⟩)
      (sectionComps (.obj fs) "sale_comps" "comps")
      (fun c hcm i => compEntry_eq (hsaleOK c hcm) _ _ _) 0
    have hactMap := optIdxMap_eq
      (fun i c => compEntry (aLab i)
        (mkCityState (strField (coverFields (.obj fs)) "address_city")
          (strField (coverFields (.obj fs)) "address_state")
          (strField (coverFields (.obj fs)) "address_zip")) (activePath i) c)
      (fun i c => ⟨aLab i, mkCompAddr (compAddrOf c)
        (mkCityState (strField (coverFields (.obj fs)) "address_city")
          (strField (coverFields (.obj fs)) "address_state")
          (strField (coverFields (.obj fs)) "address_zip")), activePath i⟩)
      (sectionComps (.obj fs) "active_comps" "comps")
      (fun c hcm i => compEntry_eq (hactOK c hcm) _ _ _) 0
    have hrentMap := optIdxMap_eq
      (fun gi g =>
        match pyGet g "comps" (.arr []) with
        | none => none
        | some compsJ =>
          match asList compsJ with
          | none => none
          | some comps =>
            optIdxMap (fun ci c => compEntry (rLab gi ci)
              (mkCityState (strField (coverFields (.obj fs)) "address_city")
                (strField (coverFields (.obj fs)) "address_state")
                (strField (coverFields (.obj fs)) "address_zip")) (rentPath gi ci) c)
              0 comps)
      (fun gi g => idxMap (fun ci c => ⟨rLab gi ci, mkCompAddr (compAddrOf c)
        (mkCityState (strField (coverFields (.obj fs)) "address_city")
          (strField (coverFields (.obj fs)) "address_state")
          (strField (coverFields (.obj fs)) "address_zip")), rentPath gi ci⟩)
        0 (groupCompsOf g))
      (sectionComps (.obj fs) "rent_comps" "groups")
      (fun g hg gi => by
        obtain ⟨cv, hg1, hg2, hOK⟩ := group_chain (hrentOK g hg)
        have hInner := optIdxMap_eq
          (fun ci c => compEntry (rLab gi ci)
            (mkCityState (strField (coverFields (.obj fs)) "address_city")
              (strField (coverFields (.obj fs)) "address_state")
              (strField (coverFields (.obj fs)) "address_zip")) (rentPath gi ci) c)
          (fun ci c => ⟨rLab gi ci, mkCompAddr (compAddrOf c)
            (mkCityState (strField (coverFields (.obj fs)) "address_city")
              (strField (coverFields (.obj fs)) "address_state")
              (strField (coverFields (.obj fs)) "address_zip")), rentPath gi ci⟩)
          (groupCompsOf g)
          (fun c hcm ci => compEntry_eq (hOK c hcm) _ _ _) 0
        simp only [hg1, hg2, hInner]) 0
    rw [extract_addresses.eq_def]
    simp only [hc1, hstreet, hcity, hstate, hzip,
      hsec1, hsec2, hsec3, hact1, hact2, hact3, hrent1, hrent2, hrent3,
      hsaleMap, hactMap, hrentMap]
    simp only [entriesOf, streetOf, cityOf, stateOf, zipOf, saleCompsOf,
      activeCompsOf, rentGroupsOf]

/-!
The label list of the extracted entries: its exact shape, pairwise
distinctness, and the entry count.
-/

theorem idxMap_length {α β : Type _} (f : Nat → α → β) :
    ∀ (s : Nat) (l : List α), (idxMap f s l).length = l.length
  | _, [] => rfl
  | s, x :: xs => by
    simp only [idxMap, List.length_cons]
    rw [idxMap_length f (s + 1) xs]

theorem idxMap_map {α β γ : Type _} (f : Nat → α → β) (h : β → γ) :
    ∀ (s : Nat) (l : List α), (idxMap f s l).map h = idxMap (fun i x => h (f i x)) s l
  | _, [] => rfl
  | s, x :: xs => by
    simp only [idxMap, List.map_cons, List.cons.injEq, true_and]
    exact idxMap_map f h (s + 1) xs

theorem idxMap_const_eq_map {α β : Type _} (f : α → β) :
    ∀ (s : Nat) (l : List α), idxMap (fun _ x => f x) s l = l.map f
  | _, [] => rfl
  | s, x :: xs => by
    simp only [idxMap, List.map_cons, List.cons.injEq, true_and]
    exact idxMap_const_eq_map f (s + 1) xs

theorem idxMap_mem {α β : Type _} {f : Nat → α → β} :
    ∀ {s : Nat} {l : List α} {y : β}, y ∈ idxMap f s l → ∃ i x, s ≤ i ∧ y = f i x := by
  intro s l
  induction l generalizing s with
  | nil => intro y hy; simp [idxMap] at hy
  | cons x xs ih =>
    intro y hy
    simp only [idxMap, List.mem_cons] at hy
    rcases hy with h | h
    · exact ⟨s, x, le_rfl, h⟩
    · obtain ⟨i, z, hi, hz⟩ := ih h
      exact ⟨i, z, by omega, hz⟩

theorem idxMap_nodup {α β : Type _} {f : Nat → α → β}
    (hinj : ∀ i j x y, f i x = f j y → i = j) :
    ∀ (s : Nat) (l : List α), (idxMap f s l).Nodup
  | _, [] => List.nodup_nil
  | s, x :: xs => by
    rw [show idxMap f s (x :: xs) = f s x :: idxMap f (s + 1) xs from rfl,
      List.nodup_cons]
    constructor
    · intro hmem
      obtain ⟨i, z, hi, hz⟩ := idxMap_mem hmem
      have := hinj s i x z hz
      omega
    · exact idxMap_nodup hinj (s + 1) xs

theorem strData_append (a b : String) : (a ++ b).data = a.data ++ b.data := by
  cases a
  cases b
  rfl

theorem strExt {a b : String} (h : a.data = b.data) : a = b := by
  cases a with
  | mk da =>
    cases b with
    | mk db =>
      have hdd : da = db := h
      rw [hdd]

theorem sLab_inj {i j : Nat} (h : sLab i = sLab j) : i = j := by
  have hd := congrArg String.data h
  rw [sLab, sLab, strData_append, strData_append] at hd
  have := List.append_cancel_left hd
  exact decRepr_injective (strExt this)

theorem aLab_inj {i j : Nat} (h : aLab i = aLab j) : i = j := by
  have hd := congrArg String.data h
  rw [aLab, aLab, strData_append, strData_append] at hd
  have := List.append_cancel_left hd
  exact decRepr_injective (strExt this)

theorem append_sep_inj : ∀ (xs ys us vs : List Char), '_' ∉ xs → '_' ∉ ys →
    xs ++ '_' :: us = ys ++ '_' :: vs → xs = ys ∧ us = vs
  | [], [], us, vs => by
    intro _ _ h
    simp at h
    simp [h]
  | [], y :: ys, us, vs => by
    intro _ hy h
    simp only [List.nil_append, List.cons_append, List.cons.injEq] at h
    exfalso
    exact hy (by simp [← h.1])
  | x :: xs, [], us, vs => by
    intro hx _ h
    simp only [List.nil_append, List.cons_append, List.cons.injEq] at h
    exfalso
    exact hx (by simp [h.1])
  | x :: xs, y :: ys, us, vs => by
    intro hx hy h
    simp only [List.cons_append, List.cons.injEq] at h
    obtain ⟨hxy, hrest⟩ := h
    have := append_sep_inj xs ys us vs (fun hh => hx (by simp [hh]))
      (fun hh => hy (by simp [hh])) hrest
    exact ⟨by simp [hxy, this.1], this.2⟩

theorem decRepr_data_no_underscore (n : Nat) : '_' ∉ (decRepr n).data :=
  fun hmem => decRepr_no_underscore n '_' hmem rfl

theorem rLab_inj {g c g' c' : Nat} (h : rLab g c = rLab g' c') : g = g' ∧ c = c' := by
  have hd := congrArg String.data h
  rw [rLab, rLab] at hd
  rw [strData_append, strData_append, strData_append,
    strData_append, strData_append, strData_append] at hd
  rw [List.append_assoc, List.append_assoc, List.append_assoc, List.append_assoc] at hd
  have hd2 := List.append_cancel_left hd
  rw [show ("_".data ++ (decRepr c).data) = '_' :: (decRepr c).data from rfl,
    show ("_".data ++ (decRepr c').data) = '_' :: (decRepr c').data from rfl] at hd2
  have := append_sep_inj _ _ _ _ (decRepr_data_no_underscore g)
    (decRepr_data_no_underscore g') hd2
  exact ⟨decRepr_injective (strExt this.1), decRepr_injective (strExt this.2)⟩

theorem sLab_take (i : Nat) : (sLab i).data.take 10 = "sale_comp_".data := by
  rw [sLab, strData_append, show (10 : Nat) = "sale_comp_".data.length from rfl]
  exact List.take_left _ _

theorem aLab_take (j : Nat) : (aLab j).data.take 10 = "active_com".data := by
  rw [aLab, strData_append, List.take_append_of_le_length (by decide)]
  rfl

theorem rLab_take (g c : Nat) : (rLab g c).data.take 10 = "rent_comp_".data := by
  rw [rLab, strData_append, strData_append, strData_append,
    List.append_assoc, List.append_assoc,
    show (10 : Nat) = "rent_comp_".data.length from rfl]
  exact List.take_left _ _

theorem labels_shape (d : JValue) :
    (entriesOf d).map (·.label) =
      "subject" ::
        (idxMap (fun i _ => sLab i) 0 (saleCompsOf d)
          ++ idxMap (fun i _ => aLab i) 0 (activeCompsOf d)
          ++ (idxMap (fun gi g => idxMap (fun ci _ => rLab gi ci) 0 (groupCompsOf g)) 0
              (rentGroupsOf d)).flatten) := by
  simp only [entriesOf, List.map_cons, List.map_append, List.map_flatten, idxMap_map]

theorem rent_mem {groups : List JValue} {s : Nat} {y : String}
    (hy : y ∈ (idxMap (fun gi g => idxMap (fun ci _ => rLab gi ci) 0 (groupCompsOf g))
      s groups).flatten) :
    ∃ g c, s ≤ g ∧ y = rLab g c := by
  rw [List.mem_flatten] at hy
  obtain ⟨block, hblock, hyb⟩ := hy
  obtain ⟨gi, g, hgi, hbeq⟩ := idxMap_mem hblock
  subst hbeq
  obtain ⟨ci, c, _, hc⟩ := idxMap_mem hyb
  exact ⟨gi, ci, hgi, hc⟩

theorem rent_nodup : ∀ (groups : List JValue) (s : Nat),
    ((idxMap (fun gi g => idxMap (fun ci _ => rLab gi ci) 0 (groupCompsOf g))
      s groups).flatten).Nodup
  | [], _ => List.nodup_nil
  | g :: gs, s => by
    rw [show (idxMap (fun gi g => idxMap (fun ci _ => rLab gi ci) 0 (groupCompsOf g))
        s (g :: gs)).flatten =
      idxMap (fun ci _ => rLab s ci) 0 (groupCompsOf g) ++
        (idxMap (fun gi g => idxMap (fun ci _ => rLab gi ci) 0 (groupCompsOf g))
          (s + 1) gs).flatten from rfl]
    rw [List.nodup_append]
    refine ⟨idxMap_nodup (fun i j x y hxy => (rLab_inj hxy).2) 0 _,
      rent_nodup gs (s + 1), ?_⟩
    intro a ha hamem
    obtain ⟨i, x, _, hax⟩ := idxMap_mem ha
    obtain ⟨g', c', hg', hag⟩ := rent_mem hamem
    have heq : rLab s i = rLab g' c' := by rw [← hax, hag]
    have := (rLab_inj heq).1
    omega

theorem sLab_ne_aLab (i j : Nat) : sLab i ≠ aLab j := by
  intro h
  have h10 := congrArg (fun s : String => s.data.take 10) h
  simp only [sLab_take, aLab_take] at h10
  exact absurd h10 (by decide)

theorem sLab_ne_rLab (i g c : Nat) : sLab i ≠ rLab g c := by
  intro h
  have h10 := congrArg (fun s : String => s.data.take 10) h
  simp only [sLab_take, rLab_take] at h10
  exact absurd h10 (by decide)

theorem aLab_ne_rLab (j g c : Nat) : aLab j ≠ rLab g c := by
  intro h
  have h10 := congrArg (fun s : String => s.data.take 10) h
  simp only [aLab_take, rLab_take] at h10
  exact absurd h10 (by decide)

theorem subject_ne_sLab (i : Nat) : "subject" ≠ sLab i := by
  intro h
  have h10 := congrArg (fun s : String => s.data.take 10) h
  simp only [sLab_take] at h10
  exact absurd h10 (by decide)

theorem subject_ne_aLab (j : Nat) : "subject" ≠ aLab j := by
  intro h
  have h10 := congrArg (fun s : String => s.data.take 10) h
  simp only [aLab_take] at h10
  exact absurd h10 (by decide)

theorem subject_ne_rLab (g c : Nat) : "subject" ≠ rLab g c := by
  intro h
  have h10 := congrArg (fun s : String => s.data.take 10) h
  simp only [rLab_take] at h10
  exact absurd h10 (by decide)

theorem labels_nodup (d : JValue) : ((entriesOf d).map (·.label)).Nodup := by
  rw [labels_shape, List.nodup_cons]
  constructor
  · intro hmem
    rw [List.mem_append] at hmem
    rcases hmem with h | h
    · rw [List.mem_append] at h
      rcases h with h | h
      · obtain ⟨i, x, _, hx⟩ := idxMap_mem h
        exact subject_ne_sLab i hx
      · obtain ⟨j, x, _, hx⟩ := idxMap_mem h
        exact subject_ne_aLab j hx
    · obtain ⟨g, c, _, hx⟩ := rent_mem h
      exact subject_ne_rLab g c hx
  · rw [List.nodup_append]
    refine ⟨?_, rent_nodup (rentGroupsOf d) 0, ?_⟩
    · rw [List.nodup_append]
      refine ⟨idxMap_nodup (fun i j x y hxy => sLab_inj hxy) 0 _,
        idxMap_nodup (fun i j x y hxy => aLab_inj hxy) 0 _, ?_⟩
      intro a ha hamem
      obtain ⟨i, x, _, hax⟩ := idxMap_mem ha
      obtain ⟨j, y, _, hay⟩ := idxMap_mem hamem
      exact sLab_ne_aLab i j (by rw [← hax, hay])
    · intro a ha hamem
      obtain ⟨g, c, _, hag⟩ := rent_mem hamem
      rw [List.mem_append] at ha
      rcases ha with h | h
      · obtain ⟨i, x, _, hax⟩ := idxMap_mem h
        exact sLab_ne_rLab i g c (by rw [← hax, hag])
      · obtain ⟨j, y, _, hay⟩ := idxMap_mem h
        exact aLab_ne_rLab j g c (by rw [← hay, hag])

theorem entriesOf_length (d : JValue) :
    (entriesOf d).length = 1 + (saleCompsOf d).length + (activeCompsOf d).length +
      ((rentGroupsOf d).map (fun g => (groupCompsOf g).length)).sum := by
  simp only [entriesOf, List.length_cons, List.length_append, idxMap_length,
    List.length_flatten, idxMap_map]
  rw [idxMap_const_eq_map]
  omega

/-!
Positional lemmas, used to state which entry sits at which index.
-/

theorem idxMap_getElem? {α β : Type _} (f : Nat → α → β) :
    ∀ (l : List α) (s j : Nat) (x : α), l[j]? = some x →
      (idxMap f s l)[j]? = some (f (s + j) x)
  | [], _, j, x => by
    intro h
    simp at h
  | y :: ys, s, 0, x => by
    intro h
    simp only [List.getElem?_cons_zero, Option.some.injEq] at h
    subst h
    simp [idxMap]
  | y :: ys, s, j + 1, x => by
    intro h
    simp only [List.getElem?_cons_succ] at h
    have := idxMap_getElem? f ys (s + 1) j x h
    rw [show idxMap f s (y :: ys) = f s y :: idxMap f (s + 1) ys from rfl]
    rw [List.getElem?_cons_succ, this]
    rw [show s + 1 + j = s + (j + 1) from by omega]

theorem flatten_getElem? {α : Type _} :
    ∀ (L : List (List α)) (g : Nat) (part : List α) (c : Nat) (x : α),
    L[g]? = some part → part[c]? = some x →
    L.flatten[((L.take g).map List.length).sum + c]? = some x
  | [], g, part, c, x => by
    intro h _
    simp at h
  | l :: L, 0, part, c, x => by
    intro h hc
    simp only [List.getElem?_cons_zero, Option.some.injEq] at h
    subst h
    have hlt : c < l.length := by
      by_contra hge
      rw [List.getElem?_eq_none (by omega)] at hc
      exact Option.noConfusion hc
    rw [show ((l :: L).take 0).map List.length = [] from rfl]
    simp only [List.sum_nil, Nat.zero_add]
    rw [show (l :: L).flatten = l ++ L.flatten from rfl,
      List.getElem?_append_left hlt]
    exact hc
  | l :: L, g + 1, part, c, x => by
    intro h hc
    simp only [List.getElem?_cons_succ] at h
    have hIH := flatten_getElem? L g part c x h hc
    rw [show ((l :: L).take (g + 1)).map List.length =
      l.length :: ((L.take g).map List.length) from rfl]
    rw [show (l :: L).flatten = l ++ L.flatten from rfl]
    rw [List.sum_cons]
    rw [List.getElem?_append_right (by omega)]
    rw [show l.length + ((L.take g).map List.length).sum + c - l.length =
      ((L.take g).map List.length).sum + c from by omega]
    exact hIH

theorem take_len_sum {β : Type _} (F : Nat → JValue → List β)
    (hF : ∀ gi grp, (F gi grp).length = (groupCompsOf grp).length) :
    ∀ (groups : List JValue) (s g : Nat),
    (((idxMap F s groups).take g).map List.length).sum =
      ((groups.take g).map (fun x => (groupCompsOf x).length)).sum
  | [], s, g => by simp [idxMap]
  | grp :: rest, s, 0 => by simp
  | grp :: rest, s, g + 1 => by
    rw [show (idxMap F s (grp :: rest)).take (g + 1) =
      F s grp :: (idxMap F (s + 1) rest).take g from rfl]
    rw [show (grp :: rest).take (g + 1) = grp :: rest.take g from rfl]
    simp only [List.map_cons, List.sum_cons]
    rw [hF s grp, take_len_sum F hF rest (s + 1) g]

/-!
Claim theorems.  Concrete fixtures first.
-/

/-- A well-formed sample document with one sale comp, one active comp and one
rent comp group holding one comp. -/
def docW : JValue := JValue.obj
  [("cover", JValue.obj
      [("address_street", JValue.str "1 Main St"),
       ("address_city", JValue.str "Metropolis"),
       ("address_state", JValue.str "NY"),
       ("address_zip", JValue.str "10001")]),
   ("coordinates", JValue.obj []),
   ("sale_comps", JValue.obj
      [("comps", JValue.arr [JValue.obj [("address", JValue.str "2 Oak Ave")]])]),
   ("active_comps", JValue.obj
      [("comps", JValue.arr [JValue.obj [("address", JValue.str "3 Elm St")]])]),
   ("rent_comps", JValue.obj
      [("groups", JValue.arr
        [JValue.obj [("comps", JValue.arr
          [JValue.obj [("address", JValue.str "4 Pine Rd")]])]])])]

/-- The same document with the optional `active_comps` section missing. -/
def docM : JValue := JValue.obj
  [("cover", JValue.obj
      [("address_street", JValue.str "1 Main St"),
       ("address_city", JValue.str "Metropolis"),
       ("address_state", JValue.str "NY"),
       ("address_zip", JValue.str "10001")]),
   ("sale_comps", JValue.obj
      [("comps", JValue.arr [JValue.obj [("address", JValue.str "2 Oak Ave")]])]),
   ("rent_comps", JValue.obj
      [("groups", JValue.arr
        [JValue.obj [("comps", JValue.arr
          [JValue.obj [("address", JValue.str "4 Pine Rd")]])]])])]

/-- A document holding only an empty `coordinates` section. -/
def dCoords : JValue := JValue.obj [("coordinates", JValue.obj [])]

/-- A one-entry sample entry list (the subject entry of `docW`). -/
def eSubject : AddrEntry :=
  ⟨"subject", "1 Main St, Metropolis, NY 10001", subjectPath⟩

/-- C3: the claim states that the merge routine validates every path step
while navigating rather than performing unchecked dynamic indexing, handling
invalid steps instead of failing with an unguarded lookup error.  It is
false: `update_json` navigates with plain `obj[key]`.  On the empty document
and a single outcome carrying coordinates for the path
`['coordinates', 'subject']`, the very first lookup raises an unhandled
`KeyError` (modelled as the merge evaluating to `none`), instead of the step
being handled. -/
theorem c3_counterexample :
    update_json (JValue.obj [])
      [("subject", ⟨"1 Main St", some (1, 2), subjectPath, none⟩)] = none := rfl

/-- C3 (amended): `update_json` performs unchecked dynamic indexing — an
invalid step makes the merge fail with a lookup error rather than being
handled — but whenever every coordinate-bearing outcome's recorded path is
writable against the document and no two such paths overlap (which is how
extraction records them), the merge completes without error. -/
theorem c3_merge_success_on_valid_paths (d : JValue)
    (rs : List (String × GeoResult)) (hp : PairwiseIncomp rs)
    (hw : ∀ r ∈ rs, r.2.coords.isSome = true → writable d r.2.json_path = true) :
    (update_json d rs).isSome = true :=
  update_json_isSome rs d hp hw

/-- C3 witness: a concrete document and outcome list satisfying the
hypotheses, with the merge succeeding. -/
theorem c3_witness :
    PairwiseIncomp [("subject", ⟨"1 Main St", some (1, 2), subjectPath, none⟩)] ∧
    (∀ r ∈ [(("subject", ⟨"1 Main St", some (1, 2), subjectPath, none⟩) :
        String × GeoResult)], r.2.coords.isSome = true →
      writable dCoords r.2.json_path = true) ∧
    (update_json dCoords
      [("subject", ⟨"1 Main St", some (1, 2), subjectPath, none⟩)]).isSome = true := by
  refine ⟨?_, ?_, ?_⟩
  · constructor
    · intro b hb
      simp at hb
    · exact List.Pairwise.nil
  · decide
  · exact c3_merge_success_on_valid_paths dCoords _
      (by constructor
          · intro b hb
            simp at hb
          · exact List.Pairwise.nil)
      (by decide)

/-- C4: the claim states that merge is idempotent for every document and
every outcome list.  It is false when one outcome's path is a proper prefix
of an earlier outcome's path: on `{"a": {"b": 0}}` with outcomes writing at
`['a', 'b']` and then at `['a']`, the first merge succeeds (producing
`{"a": [3, 4]}`), but re-running the merge on the result raises a
`TypeError` while navigating `['a', 'b']` through the written coordinate
pair, so `merge(merge(doc, outcomes), outcomes)` is a crash, not the
document `merge(doc, outcomes)` produced. -/
theorem c4_counterexample :
    update_json (JValue.obj [("a", JValue.obj [("b", JValue.num 0)])])
      [("r1", ⟨"x", some (1, 2), [Step.key "a", Step.key "b"], none⟩),
       ("r2", ⟨"y", some (3, 4), [Step.key "a"], none⟩)] =
      some (JValue.obj [("a", JValue.arr [JValue.num 3, JValue.num 4])]) ∧
    update_json (JValue.obj [("a", JValue.arr [JValue.num 3, JValue.num 4])])
      [("r1", ⟨"x", some (1, 2), [Step.key "a", Step.key "b"], none⟩),
       ("r2", ⟨"y", some (3, 4), [Step.key "a"], none⟩)] = none :=
  ⟨rfl, rfl⟩

/-- C4 (amended): merge is idempotent provided no written outcome path is a
prefix of another written outcome's path (which holds for every path set the
extractor records): re-running `update_json` with the same outcomes on an
already-merged document returns that document unchanged, and on a failing
merge both sides fail alike. -/
theorem c4_merge_idem (d : JValue) (rs : List (String × GeoResult))
    (hp : PairwiseIncomp rs) :
    ((update_json d rs).bind fun d1 => update_json d1 rs) = update_json d rs := by
  cases hu : update_json d rs with
  | none => rfl
  | some d1 =>
    simp only [Option.some_bind]
    exact update_json_idem rs d d1 hp hu

/-- C4 witness: two incomparable written paths on a concrete document;
re-merging is a no-op. -/
theorem c4_witness :
    PairwiseIncomp
      [("subject", ⟨"a", some (1, 2), subjectPath, none⟩),
       ("other", ⟨"b", some (3, 4), [Step.key "coordinates", Step.key "other"], none⟩)] ∧
    ((update_json dCoords
        [("subject", ⟨"a", some (1, 2), subjectPath, none⟩),
         ("other", ⟨"b", some (3, 4), [Step.key "coordinates", Step.key "other"], none⟩)]).bind
      fun d1 => update_json d1
        [("subject", ⟨"a", some (1, 2), subjectPath, none⟩),
         ("other", ⟨"b", some (3, 4), [Step.key "coordinates", Step.key "other"], none⟩)]) =
    update_json dCoords
      [("subject", ⟨"a", some (1, 2), subjectPath, none⟩),
       ("other", ⟨"b", some (3, 4), [Step.key "coordinates", Step.key "other"], none⟩)] := by
  have hp : PairwiseIncomp
      [("subject", ⟨"a", some (1, 2), subjectPath, none⟩),
       ("other", ⟨"b", some (3, 4), [Step.key "coordinates", Step.key "other"], none⟩)] := by
    constructor
    · intro b hb
      simp at hb
      subst hb
      intro _ _
      decide
    · constructor
      · intro b hb
        simp at hb
      · exact List.Pairwise.nil
  exact ⟨hp, c4_merge_idem dCoords _ hp⟩

/-- C5: merge touches only the recorded paths — every location independent
of (incomparable with) all written outcome paths reads the same before and
after the merge — and outcomes with absent coordinates are skipped entirely:
the merge of an outcome list equals the merge of its coordinate-bearing
sublist, so no null or placeholder is written at a skipped outcome's
location. -/
theorem c5_merge_frame :
    (∀ (d : JValue) (rs : List (String × GeoResult)),
      update_json d rs = update_json d (rs.filter fun r => r.2.coords.isSome)) ∧
    (∀ (d d1 : JValue) (rs : List (String × GeoResult)) (q : List Step),
      update_json d rs = some d1 →
      (∀ r ∈ rs, r.2.coords.isSome = true → incomp q r.2.json_path = true) →
      getPath d1 q = getPath d q) :=
  ⟨fun d rs => update_json_filter rs d,
   fun d d1 rs q h hq => getPath_update_frame rs d d1 q hq h⟩

/-- C5 witness: writing the subject path leaves the untouched field `other`
(and a skipped no-coordinates outcome's own path) exactly as they were. -/
theorem c5_witness :
    update_json (JValue.obj [("coordinates", JValue.obj []), ("other", JValue.num 7)])
      [("subject", ⟨"a", some (1, 2), subjectPath, none⟩),
       ("skip", ⟨"b", none, [Step.key "other"], some "boom"⟩)] =
      some (JValue.obj
        [("coordinates", JValue.obj [("subject", JValue.arr [JValue.num 1, JValue.num 2])]),
         ("other", JValue.num 7)]) ∧
    getPath (JValue.obj
        [("coordinates", JValue.obj [("subject", JValue.arr [JValue.num 1, JValue.num 2])]),
         ("other", JValue.num 7)]) [Step.key "other"] =
      getPath (JValue.obj [("coordinates", JValue.obj []), ("other", JValue.num 7)])
        [Step.key "other"] := by
  refine ⟨rfl, ?_⟩
  exact c5_merge_frame.2 _ _
    [("subject", ⟨"a", some (1, 2), subjectPath, none⟩),
     ("skip", ⟨"b", none, [Step.key "other"], some "boom"⟩)]
    [Step.key "other"] rfl (by decide)

/-- C10: on the completely empty document `{}`, extraction succeeds and
returns exactly the unconditional subject entry: label `subject`, path
`['coordinates', 'subject']`, and address text `", ,  "` (comma, space,
comma, space, space), i.e. the join of four empty fields. -/
theorem c10_empty_doc_extraction :
    extract_addresses (JValue.obj []) =
      some [⟨"subject", ", ,  ", [Step.key "coordinates", Step.key "subject"]⟩] := rfl

/-- C1: the claim states that the final summary reports three separate
counts — successes, not-found results, and errors — and that one not-found
entry yields a summary of 1 not-found, 0 successes, 0 errors.  It is false:
the printed summary is `Total | Success | Failed` with only two tallies, and
a not-found result increments the same `failed` counter as a raised error.
For one entry, a not-found run and an error run produce the identical
summary `(1, 0, 1)` — so not-found is not tallied separately from errors,
and no summary field reports `0` for the not-found case. -/
theorem c1_counterexample :
    finalSummary (fun _ => Resp.notFound) [eSubject] =
      finalSummary (fun _ => Resp.raises "boom") [eSubject] ∧
    finalSummary (fun _ => Resp.notFound) [eSubject] = (1, 0, 1) :=
  ⟨rfl, rfl⟩

/-- C1 (amended): the final summary reports the total and two tallies —
successes, and failures — where the failure tally is the sum of the
not-found results and the raised errors (the two cases are distinguished
only in the per-entry progress lines, not in the summary).  For one
not-found entry the summary reads total 1, success 0, failed 1. -/
theorem c1_summary_counts (resolver : Nat → Resp) (entries : List AddrEntry) :
    finalSummary resolver entries =
      (entries.length,
        (List.range entries.length).countP (fun i => (resolver i).isFound),
        (List.range entries.length).countP (fun i => (resolver i).isNotFound) +
          (List.range entries.length).countP (fun i => (resolver i).isRaises)) := by
  unfold finalSummary geocode_all
  rw [geocodeLoop_success, geocodeLoop_failed, List.range_eq_range']
  rw [show (⟨[], 0, 0, 0, []⟩ : GeoState).success = 0 from rfl,
    show (⟨[], 0, 0, 0, []⟩ : GeoState).failed = 0 from rfl,
    Nat.zero_add, Nat.zero_add]
  rw [← countP_or_disjoint (fun i => (resolver i).isNotFound)
    (fun i => (resolver i).isRaises) (List.range' 0 entries.length)
    (fun j _ => by
      cases hrj : resolver j <;> simp [hrj, Resp.isNotFound, Resp.isRaises])]

/-- C7: the claim states that a fixed delay is waited after each resolver
call regardless of outcome — including calls that raise — one delay per
entry.  It is false: `time.sleep(0.5)` sits inside the `try` block after the
branch on the result, so a call that raises jumps to the `except` handler
and skips the delay.  With one entry whose call raises, the loop performs 0
delays, not 1. -/
theorem c7_counterexample :
    (geocode_all (fun _ => Resp.raises "boom") [eSubject]).sleeps = 0 ∧
    ([eSubject] : List AddrEntry).length = 1 :=
  ⟨rfl, rfl⟩

/-- C7 (amended): a fixed delay is waited after each resolver call that
returns a location or a not-found result; a call that raises skips the
delay, so the number of delays equals the number of non-raising calls rather
than the number of entries. -/
theorem c7_sleep_counts (resolver : Nat → Resp) (entries : List AddrEntry) :
    (geocode_all resolver entries).sleeps =
      (List.range entries.length).countP (fun i => (resolver i).isFound) +
        (List.range entries.length).countP (fun i => (resolver i).isNotFound) := by
  unfold geocode_all
  rw [geocodeLoop_sleeps, List.range_eq_range']
  rw [show (⟨[], 0, 0, 0, []⟩ : GeoState).sleeps = 0 from rfl, Nat.zero_add]
  rw [← countP_or_disjoint (fun i => (resolver i).isFound)
    (fun i => (resolver i).isNotFound) (List.range' 0 entries.length)
    (fun j _ => by
      cases hrj : resolver j <;> simp [hrj, Resp.isFound, Resp.isNotFound])]

/-- C2: for every well-formed document and any per-entry adapter behaviour
(success, not-found, or raised error), `geocode_all` on the extracted
entries produces exactly one outcome per entry, keyed by the entry's label,
with the outcome sequence's length and order equal to the entries' length
and order; in particular a raised error at one entry never aborts the
processing of the remaining entries. -/
theorem c2_outcomes_one_per_entry {d : JValue} {es : List AddrEntry}
    (hwf : wellFormed d = true) (hex : extract_addresses d = some es)
    (resolver : Nat → Resp) :
    (geocode_all resolver es).results.map Prod.fst = es.map (·.label) ∧
    (geocode_all resolver es).results.length = es.length := by
  rw [extract_eq hwf] at hex
  have hes : entriesOf d = es := Option.some.inj hex
  have hnd : (es.map (·.label)).Nodup := hes ▸ labels_nodup d
  unfold geocode_all
  rw [geocodeLoop_results resolver es 0 _ hnd (by simp)]
  rw [show (⟨[], 0, 0, 0, []⟩ : GeoState).results = [] from rfl, List.nil_append]
  exact ⟨runResults_map_fst resolver es 0, runResults_length resolver es 0⟩

/-- C2 witness: the four-entry sample document under an adapter that raises
on the second call and finds nothing on the others still yields one outcome
per entry, in extraction order. -/
theorem c2_witness :
    wellFormed docW = true ∧
    extract_addresses docW = some (entriesOf docW) ∧
    ((geocode_all (fun i => if i = 1 then Resp.raises "boom" else Resp.notFound)
        (entriesOf docW)).results.map Prod.fst = (entriesOf docW).map (·.label) ∧
      (geocode_all (fun i => if i = 1 then Resp.raises "boom" else Resp.notFound)
        (entriesOf docW)).results.length = (entriesOf docW).length) :=
  ⟨rfl, rfl,
   c2_outcomes_one_per_entry (d := docW) rfl rfl
     (fun i => if i = 1 then Resp.raises "boom" else Resp.notFound)⟩

/-- C8: for every successful resolution, the recorded coordinates are the
resolver's latitude and longitude each rounded to 6 decimal digits at the
point of creation, and merging that outcome writes the two-element array
`[latitude, longitude]` — latitude first — at the recorded path. -/
theorem c8_rounded_pair (resolver : Nat → Resp) (entries : List AddrEntry)
    (hnd : (entries.map (·.label)).Nodup) (i : Nat) (la lo : ℚ) (e : AddrEntry)
    (he : entries[i]? = some e) (hr : resolver i = Resp.found la lo) :
    ∃ res : GeoResult,
      (geocode_all resolver entries).results[i]? = some (e.label, res) ∧
      res.coords = some (round6 la, round6 lo) ∧
      res.json_path = e.json_path ∧
      ∀ (d d' : JValue), update_json d [(e.label, res)] = some d' →
        getPath d' e.json_path =
          some (.arr [.num (round6 la), .num (round6 lo)]) := by
  refine ⟨mkGeoResult (resolver i) e, ?_, ?_, ?_, ?_⟩
  · unfold geocode_all
    rw [geocodeLoop_results resolver entries 0 _ hnd (by simp)]
    rw [show (⟨[], 0, 0, 0, []⟩ : GeoState).results = [] from rfl, List.nil_append]
    have := runResults_getElem? resolver entries 0 i e he
    rw [show (0 : Nat) + i = i from by omega] at this
    exact this
  · rw [hr]
    rfl
  · rw [hr]
    rfl
  · intro d d' hu
    rw [update_json_cons, Option.bind_eq_some] at hu
    obtain ⟨d1, hm, hrest⟩ := hu
    rw [update_json_nil] at hrest
    cases hrest
    rw [hr] at hm
    have hset : setPath d e.json_path
        (.arr [.num (round6 la), .num (round6 lo)]) = some d' := by
      simpa [mergeStep, mkGeoResult] using hm
    exact getPath_setPath_self _ _ _ _ hset

/-- C8 witness: one entry, a found response `(40, -74)`; the recorded
coordinates round to themselves and merge as `[40, -74]` at the subject
path. -/
theorem c8_witness :
    (([eSubject] : List AddrEntry).map (·.label)).Nodup ∧
    ([eSubject] : List AddrEntry)[0]? = some eSubject ∧
    (fun _ : Nat => Resp.found 40 (-74)) 0 = Resp.found 40 (-74) ∧
    ∃ res : GeoResult,
      (geocode_all (fun _ => Resp.found 40 (-74)) [eSubject]).results[0]? =
        some (eSubject.label, res) ∧
      res.coords = some (round6 40, round6 (-74)) ∧
      res.json_path = eSubject.json_path ∧
      ∀ (d d' : JValue), update_json d [(eSubject.label, res)] = some d' →
        getPath d' eSubject.json_path =
          some (.arr [.num (round6 40), .num (round6 (-74))]) := by
  refine ⟨by decide, rfl, rfl, ?_⟩
  exact c8_rounded_pair (fun _ => Resp.found 40 (-74)) [eSubject]
    (by decide) 0 40 (-74) eSubject rfl rfl

theorem getElem?_lt {α : Type _} {l : List α} {i : Nat} {x : α}
    (h : l[i]? = some x) : i < l.length := by
  by_contra hge
  rw [List.getElem?_eq_none (by omega)] at h
  exact Option.noConfusion h

/-- C6: for every well-formed document, extraction succeeds (a missing
optional section contributes zero entries and never causes a failure), and
returns entries whose labels are exactly `subject`, `sale_comp_{i}`,
`active_comp_{i}` and `rent_comp_{g}_{c}` in extraction order, pairwise
distinct, with the entry count equal to
`1 + |sale_comps.comps| + |active_comps.comps| + Σ |rent group comps|`. -/
theorem c6_extract_labels_and_count {d : JValue} (hwf : wellFormed d = true) :
    ∃ es, extract_addresses d = some es ∧
      es.map (·.label) =
        "subject" ::
          (idxMap (fun i _ => sLab i) 0 (saleCompsOf d)
            ++ idxMap (fun i _ => aLab i) 0 (activeCompsOf d)
            ++ (idxMap (fun gi g => idxMap (fun ci _ => rLab gi ci) 0 (groupCompsOf g)) 0
                (rentGroupsOf d)).flatten) ∧
      (es.map (·.label)).Nodup ∧
      es.length = 1 + (saleCompsOf d).length + (activeCompsOf d).length +
        ((rentGroupsOf d).map (fun g => (groupCompsOf g).length)).sum :=
  ⟨entriesOf d, extract_eq hwf, labels_shape d, labels_nodup d, entriesOf_length d⟩

/-- C6 witness: a well-formed document missing the optional `active_comps`
section; extraction succeeds with 3 entries (`1 + 1 + 0 + 1`). -/
theorem c6_witness :
    wellFormed docM = true ∧
    (∃ es, extract_addresses docM = some es ∧
      es.map (·.label) =
        "subject" ::
          (idxMap (fun i _ => sLab i) 0 (saleCompsOf docM)
            ++ idxMap (fun i _ => aLab i) 0 (activeCompsOf docM)
            ++ (idxMap (fun gi g => idxMap (fun ci _ => rLab gi ci) 0 (groupCompsOf g)) 0
                (rentGroupsOf docM)).flatten) ∧
      (es.map (·.label)).Nodup ∧
      es.length = 1 + (saleCompsOf docM).length + (activeCompsOf docM).length +
        ((rentGroupsOf docM).map (fun g => (groupCompsOf g).length)).sum) :=
  ⟨rfl, c6_extract_labels_and_count (d := docM) rfl⟩

/-- C9: for every sale, active and rent comparable of a well-formed
document, the extracted entry (at its documented position) carries the
address text built from the comparable's own `address` field joined, with
the separator `", "`, to the subject cover section's city, state and zip —
never the comparable's own city/state/zip — with missing fields rendered as
empty strings. -/
theorem c9_comp_addresses_use_subject_city {d : JValue} {es : List AddrEntry}
    (hwf : wellFormed d = true) (hex : extract_addresses d = some es) :
    (∀ i c, (saleCompsOf d)[i]? = some c →
      es[1 + i]? = some ⟨sLab i,
        mkCompAddr (compAddrOf c) (mkCityState (cityOf d) (stateOf d) (zipOf d)),
        salePath i⟩) ∧
    (∀ i c, (activeCompsOf d)[i]? = some c →
      es[1 + (saleCompsOf d).length + i]? = some ⟨aLab i,
        mkCompAddr (compAddrOf c) (mkCityState (cityOf d) (stateOf d) (zipOf d)),
        activePath i⟩) ∧
    (∀ g grp c comp, (rentGroupsOf d)[g]? = some grp →
      (groupCompsOf grp)[c]? = some comp →
      es[1 + (saleCompsOf d).length + (activeCompsOf d).length +
          (((rentGroupsOf d).take g).map (fun x => (groupCompsOf x).length)).sum + c]? =
        some ⟨rLab g c,
          mkCompAddr (compAddrOf comp) (mkCityState (cityOf d) (stateOf d) (zipOf d)),
          rentPath g c⟩) := by
  rw [extract_eq hwf] at hex
  have hes : entriesOf d = es := Option.some.inj hex
  subst hes
  set CS := mkCityState (cityOf d) (stateOf d) (zipOf d) with hCS
  have hSlen : (idxMap (fun i c =>
      (⟨sLab i, mkCompAddr (compAddrOf c) CS, salePath i⟩ : AddrEntry)) 0
      (saleCompsOf d)).length = (saleCompsOf d).length := idxMap_length _ _ _
  have hAlen : (idxMap (fun i c =>
      (⟨aLab i, mkCompAddr (compAddrOf c) CS, activePath i⟩ : AddrEntry)) 0
      (activeCompsOf d)).length = (activeCompsOf d).length := idxMap_length _ _ _
  refine ⟨?_, ?_, ?_⟩
  · intro i c hc
    have hlt := getElem?_lt hc
    rw [show (1 : Nat) + i = i + 1 from by omega]
    rw [show entriesOf d =
      (⟨"subject", mkSubjectAddr (streetOf d) (cityOf d) (stateOf d) (zipOf d),
        subjectPath⟩ : AddrEntry) ::
        (idxMap (fun i c => ⟨sLab i, mkCompAddr (compAddrOf c) CS, salePath i⟩) 0
            (saleCompsOf d)
          ++ idxMap (fun i c => ⟨aLab i, mkCompAddr (compAddrOf c) CS, activePath i⟩) 0
            (activeCompsOf d)
          ++ (idxMap (fun gi g => idxMap (fun ci c =>
              ⟨rLab gi ci, mkCompAddr (compAddrOf c) CS, rentPath gi ci⟩) 0
              (groupCompsOf g)) 0 (rentGroupsOf d)).flatten) from rfl]
    rw [List.getElem?_cons_succ]
    rw [List.getElem?_append_left (by rw [List.length_append, hSlen]; omega)]
    rw [List.getElem?_append_left (by rw [hSlen]; omega)]
    have := idxMap_getElem?
      (fun i c => (⟨sLab i, mkCompAddr (compAddrOf c) CS, salePath i⟩ : AddrEntry))
      (saleCompsOf d) 0 i c hc
    rw [show (0 : Nat) + i = i from by omega] at this
    exact this
  · intro i c hc
    have hlt := getElem?_lt hc
    rw [show (1 : Nat) + (saleCompsOf d).length + i = ((saleCompsOf d).length + i) + 1
      from by omega]
    rw [show entriesOf d =
      (⟨"subject", mkSubjectAddr (streetOf d) (cityOf d) (stateOf d) (zipOf d),
        subjectPath⟩ : AddrEntry) ::
        (idxMap (fun i c => ⟨sLab i, mkCompAddr (compAddrOf c) CS, salePath i⟩) 0
            (saleCompsOf d)
          ++ idxMap (fun i c => ⟨aLab i, mkCompAddr (compAddrOf c) CS, activePath i⟩) 0
            (activeCompsOf d)
          ++ (idxMap (fun gi g => idxMap (fun ci c =>
              ⟨rLab gi ci, mkCompAddr (compAddrOf c) CS, rentPath gi ci⟩) 0
              (groupCompsOf g)) 0 (rentGroupsOf d)).flatten) from rfl]
    rw [List.getElem?_cons_succ]
    rw [List.getElem?_append_left (by rw [List.length_append, hSlen, hAlen]; omega)]
    rw [List.getElem?_append_right (by rw [hSlen]; omega)]
    rw [hSlen]
    rw [show (saleCompsOf d).length + i - (saleCompsOf d).length = i from by omega]
    have := idxMap_getElem?
      (fun i c => (⟨aLab i, mkCompAddr (compAddrOf c) CS, activePath i⟩ : AddrEntry))
      (activeCompsOf d) 0 i c hc
    rw [show (0 : Nat) + i = i from by omega] at this
    exact this
  · intro g grp c comp hg hcomp
    have hgl := getElem?_lt hg
    have hcl := getElem?_lt hcomp
    set F := fun gi g => idxMap (fun ci c =>
      (⟨rLab gi ci, mkCompAddr (compAddrOf c) CS, rentPath gi ci⟩ : AddrEntry)) 0
      (groupCompsOf g) with hF
    have hoff : (((idxMap F 0 (rentGroupsOf d)).take g).map List.length).sum =
        (((rentGroupsOf d).take g).map (fun x => (groupCompsOf x).length)).sum :=
      take_len_sum F (fun gi grp => idxMap_length _ _ _) (rentGroupsOf d) 0 g
    have hL : (idxMap F 0 (rentGroupsOf d))[g]? = some (F g grp) := by
      have := idxMap_getElem? F (rentGroupsOf d) 0 g grp hg
      rw [show (0 : Nat) + g = g from by omega] at this
      exact this
    have hpart : (F g grp)[c]? = some
        (⟨rLab g c, mkCompAddr (compAddrOf comp) CS, rentPath g c⟩ : AddrEntry) := by
      rw [hF]
      have := idxMap_getElem? (fun ci c =>
        (⟨rLab g ci, mkCompAddr (compAddrOf c) CS, rentPath g ci⟩ : AddrEntry))
        (groupCompsOf grp) 0 c comp hcomp
      rw [show (0 : Nat) + c = c from by omega] at this
      exact this
    have hflat := flatten_getElem? (idxMap F 0 (rentGroupsOf d)) g (F g grp) c _ hL hpart
    rw [hoff] at hflat
    rw [show (1 : Nat) + (saleCompsOf d).length + (activeCompsOf d).length +
        (((rentGroupsOf d).take g).map (fun x => (groupCompsOf x).length)).sum + c =
      ((saleCompsOf d).length + (activeCompsOf d).length +
        ((((rentGroupsOf d).take g).map (fun x => (groupCompsOf x).length)).sum + c)) + 1
      from by omega]
    rw [show entriesOf d =
      (⟨"subject", mkSubjectAddr (streetOf d) (cityOf d) (stateOf d) (zipOf d),
        subjectPath⟩ : AddrEntry) ::
        (idxMap (fun i c => ⟨sLab i, mkCompAddr (compAddrOf c) CS, salePath i⟩) 0
            (saleCompsOf d)
          ++ idxMap (fun i c => ⟨aLab i, mkCompAddr (compAddrOf c) CS, activePath i⟩) 0
            (activeCompsOf d)
          ++ (idxMap F 0 (rentGroupsOf d)).flatten) from rfl]
    rw [List.getElem?_cons_succ]
    rw [List.getElem?_append_right (by rw [List.length_append, hSlen, hAlen]; omega)]
    rw [List.length_append, hSlen, hAlen]
    rw [show (saleCompsOf d).length + (activeCompsOf d).length +
        ((((rentGroupsOf d).take g).map (fun x => (groupCompsOf x).length)).sum + c) -
        ((saleCompsOf d).length + (activeCompsOf d).length) =
      (((rentGroupsOf d).take g).map (fun x => (groupCompsOf x).length)).sum + c
      from by omega]
    exact hflat

/-- C9 witness: in the sample document, the sale, active and rent comps each
get the subject's `Metropolis, NY 10001` appended to their own street. -/
theorem c9_witness :
    wellFormed docW = true ∧
    extract_addresses docW = some (entriesOf docW) ∧
    (saleCompsOf docW)[0]? = some (JValue.obj [("address", JValue.str "2 Oak Ave")]) ∧
    (entriesOf docW)[1 + 0]? = some ⟨sLab 0,
      mkCompAddr (compAddrOf (JValue.obj [("address", JValue.str "2 Oak Ave")]))
        (mkCityState (cityOf docW) (stateOf docW) (zipOf docW)),
      salePath 0⟩ := by
  refine ⟨rfl, rfl, rfl, ?_⟩
  exact (c9_comp_addresses_use_subject_city (d := docW) rfl rfl).1 0
    (JValue.obj [("address", JValue.str "2 Oak Ave")]) rfl
